import Mathlib

/-
Verification of the CheapYellowDisplayDeck host software core:
the command grammar parser (`CommandParser.parse`, both the BLE variant in
`Code/Beta/BLE/command_handler.py` and the V2 serial variant in
`PC-Software/V2/kb_handler.py`), the key-token mapper (`KeyMapper`), the
keyboard layouts (`KeyboardLayoutManager`), the frame reader
(`BluetoothThread._notification_handler` buffer-and-split loop), the session
ready latch (`SerialThread.run` / `_notification_handler`), the command
executor (`KeyExecutor.execute`), and the telemetry smoother
(`TelemetryBuffer`).

Modelling conventions:
- Python `str` values are modelled as `List Char`.  Python's Unicode-aware
  `upper`/`lower` are modelled by ASCII case mapping (the key vocabulary of
  the program is ASCII).  `str.strip()` strips the six ASCII whitespace
  characters Python strips on ASCII text.
- Python floats are modelled as exact rationals (`ℚ`).
- Side-effecting OS / keyboard-injection primitives are modelled as an
  oracle record `Effects` whose operations return `Except` values: `.error`
  models a raised exception, mirroring the `try/except` structure of the
  source.
- `bytes` and `bytes.decode('utf-8')` are modelled as `List Nat` together
  with a strict UTF-8 decoder returning `Option` (`none` models
  `UnicodeDecodeError`).
- Python's digit classes are modelled over a representative subset of the
  Unicode tables: ASCII `0`-`9` and the Arabic-Indic digits `٠`-`٩` stand
  for the decimal (`Nd`) digits that both `str.isdigit()` and `int()`
  accept, and the superscript digits `¹²³` stand for the digit-class
  characters that `str.isdigit()` accepts but `int()` rejects.  `parse`
  uses the ASCII restriction (`pyIsDigits`), which is sufficient for the
  rule-shape claims; `parsePy` refines its delay branch with the full
  model (`pyIsDigitFull`, `pyIntOfDigits`), which exposes the `ValueError`
  that `int()` raises inside `CommandParser.parse`.
-/

namespace CYD

/-- Python strings, modelled as lists of characters. -/
abbrev Str := List Char

/-- Coerce a Lean string literal to the `Str` model. -/
def str (s : String) : Str := s.data

/-- The six ASCII whitespace characters stripped by Python `str.strip()`
(space, tab, newline, carriage return, vertical tab, form feed), compared
by code point. -/
def pyIsSpace (c : Char) : Bool :=
  c.toNat = 32 || c.toNat = 9 || c.toNat = 10 || c.toNat = 13
    || c.toNat = 11 || c.toNat = 12

/-- Python `str.strip()` (ASCII whitespace). -/
def pyStrip (s : Str) : Str :=
  ((s.dropWhile pyIsSpace).reverse.dropWhile pyIsSpace).reverse

/-- Python `str.rstrip('+')`. -/
def rstripPlus (s : Str) : Str :=
  (s.reverse.dropWhile (· = '+')).reverse

/-- ASCII lower-casing of one character (model of Python `str.lower()`). -/
def asciiLowerChar (c : Char) : Char :=
  if 65 ≤ c.toNat ∧ c.toNat ≤ 90 then Char.ofNat (c.toNat + 32) else c

/-- ASCII upper-casing of one character (model of Python `str.upper()`). -/
def asciiUpperChar (c : Char) : Char :=
  if 97 ≤ c.toNat ∧ c.toNat ≤ 122 then Char.ofNat (c.toNat - 32) else c

/-- Python `str.lower()` on the ASCII model. -/
def asciiLower (s : Str) : Str := s.map asciiLowerChar

/-- Python `str.upper()` on the ASCII model. -/
def asciiUpper (s : Str) : Str := s.map asciiUpperChar

/-- Python `str.isdigit()` restricted to ASCII digits:
true iff the string is non-empty and all characters are `0`..`9`.  This is
the digit model used inside `parse`; it under-approximates Python's
`str.isdigit()`, which also accepts non-ASCII digit-class characters — see
`pyIsDigitFull` and `parsePy` for the full model that exposes the `int()`
error path of the delay branch. -/
def pyIsDigits (s : Str) : Bool :=
  !s.isEmpty && s.all (fun c => decide (48 ≤ c.toNat ∧ c.toNat ≤ 57))

/-- Decimal value of a digit string (model of Python `int(...)` on the
result of a successful `isdigit` check). -/
def natOfDigits (s : Str) : Nat :=
  s.foldl (fun acc c => acc * 10 + (c.toNat - 48)) 0

/-- Python `str.split(sep)` for a one-character separator (all fields kept,
so `"".split('+') = [""]` and separators at the ends give empty fields). -/
def splitOnChar (sep : Char) : Str → List Str
  | [] => [[]]
  | c :: cs =>
    let r := splitOnChar sep cs
    if c = sep then [] :: r
    else
      match r with
      | h :: t => (c :: h) :: t
      | [] => [[c]]

/-- Split a string at the first occurrence of `sep`:
`some (before, after)` when `sep` occurs (`before` is `s[:s.index(sep)]`,
`after` is `s[s.index(sep)+1:]`), `none` otherwise.  This models Python
`s.index(sep)` together with the slices around it, and also
`s.split(sep, 1)` when the separator occurs. -/
def splitFirstChar (sep : Char) : Str → Option (Str × Str)
  | [] => none
  | c :: cs =>
    if c = sep then some ([], cs)
    else
      match splitFirstChar sep cs with
      | none => none
      | some (l, r) => some (c :: l, r)

/-- Split a string at the last occurrence of `sep` (models Python
`s.rindex(sep)` with the slices around it). -/
def splitLastChar (sep : Char) (s : Str) : Option (Str × Str) :=
  match splitFirstChar sep s.reverse with
  | none => none
  | some (l, r) => some (r.reverse, l.reverse)

/-- `KeyMapper.KEY_MAPPINGS`: the fixed alias table, including the
generated `F1`..`F24` entries. -/
def KEY_MAPPINGS : List (Str × Str) :=
  [(str "CTRL", str "ctrl"), (str "CONTROL", str "ctrl"),
   (str "ALT", str "alt"), (str "SHIFT", str "shift"),
   (str "WIN", str "win"), (str "WINDOWS", str "win"),
   (str "CMD", str "win"), (str "SUPER", str "win"),
   (str "FN", str "fn"), (str "FUNCTION", str "fn"),
   (str "ENTER", str "enter"), (str "RETURN", str "enter"),
   (str "SPACE", str "space"), (str "TAB", str "tab"),
   (str "ESC", str "esc"), (str "ESCAPE", str "esc"),
   (str "BACKSPACE", str "backspace"), (str "DELETE", str "delete"),
   (str "DEL", str "delete"),
   (str "UP", str "up"), (str "DOWN", str "down"),
   (str "LEFT", str "left"), (str "RIGHT", str "right"),
   (str "HOME", str "home"), (str "END", str "end"),
   (str "PAGEUP", str "page up"), (str "PAGEDOWN", str "page down")]
  ++ (List.range 24).map
      (fun i => (str "F" ++ (Nat.repr (i + 1)).data,
                 str "f" ++ (Nat.repr (i + 1)).data))

/-- Association lookup (model of Python `dict.get` on a dict with distinct
keys; insertion order is irrelevant for lookup). -/
def lookupAssoc {α : Type} (k : Str) : List (Str × α) → Option α
  | [] => none
  | p :: rest => if k = p.1 then some p.2 else lookupAssoc k rest

/-- `KeyMapper.MODIFIER_KEYS`. -/
def MODIFIER_KEYS : List Str :=
  [str "ctrl", str "alt", str "shift", str "win", str "fn"]

/-- `KeyMapper.map_key`: look the upper-cased token up in the alias table,
falling back to the lower-cased token. -/
def map_key (k : Str) : Str :=
  match lookupAssoc (asciiUpper k) KEY_MAPPINGS with
  | some v => v
  | none => asciiLower k

/-- `KeyMapper.is_modifier`. -/
def is_modifier (k : Str) : Bool :=
  MODIFIER_KEYS.contains (asciiLower k)

/-- `KeyboardLayoutManager.LAYOUTS['de']['transformations']`. -/
def deTransformations : List (Str × Str) :=
  [(str "y", str "z"), (str "z", str "y"), (str "-", str "ß"),
   (str "[", str "ü"), (str "]", str "+"), (str ";", str "ö"),
   (str "'", str "ä")]

/-- `KeyboardLayoutManager.LAYOUTS['us']['transformations']` (identity). -/
def usTransformations : List (Str × Str) := []

/-- `KeyboardLayoutManager.LAYOUTS['fr']['transformations']`. -/
def frTransformations : List (Str × Str) :=
  [(str "a", str "q"), (str "q", str "a"), (str "w", str "z"),
   (str "z", str "w"), (str "m", str ","), (str ",", str "m")]

/-- `KeyboardLayoutManager.transform_key`: layout lookup applied only to
single-character tokens. -/
def transform_key (t : List (Str × Str)) (k : Str) : Str :=
  if k.length = 1 then
    match lookupAssoc (asciiLower k) t with
    | some v => v
    | none => k
  else k

/-- `KeyboardLayoutManager.transform_keys`. -/
def transform_keys (t : List (Str × Str)) (ks : List Str) : List Str :=
  ks.map (transform_key t)

/-- `CommandType` (BLE variant; the V2 serial variant uses the subset
`keystroke`, `execute`, `text`, `ready_signal`). -/
inductive CommandType where
  | keystroke
  | execute
  | text
  | url
  | file_path
  | cmd
  | delay
  | ready_signal
deriving DecidableEq, Repr

/-- The `KeyCommand` dataclass. -/
structure KeyCommand where
  command_type : CommandType
  raw_input : Str
  modifiers : List Str
  keys : List Str
  text_content : Option Str := none
  execute_path : Option Str := none
  url : Option Str := none
  file_path : Option Str := none
  cmd_command : Option Str := none
  delay_ms : Option Nat := none
deriving DecidableEq, Repr

/-- `CommandParser.READY_SIGNALS` (identical in both variants). -/
def READY_SIGNALS : List Str :=
  [str "CYD Deck Ready!", str "cyd deck ready!", str "CYD DECK READY!",
   str "Ready!", str "ready!"]

/-- `CommandParser._is_url` (identical in both files that define it). -/
def is_url (text : Str) : Bool :=
  (str "http://").isPrefixOf (asciiLower text) ||
  (str "https://").isPrefixOf (asciiLower text) ||
  (str "www.").isPrefixOf (asciiLower text) ||
  (str "ftp://").isPrefixOf (asciiLower text)

/-- The `[KeyMapper.map_key(k.strip()) for k in s.split('+') if k.strip()]`
comprehension shared by the parser branches. -/
def mapKeyTokens (s : Str) : List Str :=
  (splitOnChar '+' s).filterMap
    (fun p => let p2 := pyStrip p; if p2 = [] then none else some (map_key p2))

/-- The default (rule 7) tail of the BLE `CommandParser.parse`: tokenize the
whole line on `+`, map through `map_key`, apply the layout transformation,
and partition by the modifier set (lines 137-141 of
`command_handler.py`; lines 113-117 of `kb_handler.py` are identical). -/
def defaultKeystroke (t : List (Str × Str)) (raw : Str) : KeyCommand :=
  let processed := transform_keys t (mapKeyTokens raw)
  { command_type := CommandType.keystroke, raw_input := raw,
    modifiers := processed.filter is_modifier,
    keys := processed.filter (fun k => !is_modifier k) }

/-- `CommandParser.parse` of the BLE variant
(`Code/Beta/BLE/command_handler.py`, lines 95-141), parametrized by the
layout transformation table, under the ASCII digit model (`pyIsDigits`).
This function is total; the source function is not: its delay branch can
raise `ValueError` from `int()` on non-ASCII digit-class characters.
`parsePy` below refines exactly that branch with the full digit model and
delegates every other (total, digit-independent) branch to this
function. -/
def parse (t : List (Str × Str)) (raw0 : Str) : KeyCommand :=
  let raw := pyStrip raw0
  if raw ∈ READY_SIGNALS then
    { command_type := CommandType.ready_signal, raw_input := raw,
      modifiers := [], keys := [] }
  else if (str "D").isPrefixOf (asciiUpper raw) ∧ 1 < raw.length
          ∧ pyIsDigits raw.tail then
    { command_type := CommandType.delay, raw_input := raw,
      modifiers := [], keys := [], delay_ms := some (natOfDigits raw.tail) }
  else if (str "<").isPrefixOf raw ∧ (str ">").isSuffixOf raw then
    { command_type := CommandType.cmd, raw_input := raw,
      modifiers := [], keys := [],
      cmd_command := some (pyStrip ((raw.drop 1).dropLast)) }
  else if (str "EXECUTE+").isPrefixOf (asciiUpper raw) then
    { command_type := CommandType.execute, raw_input := raw,
      modifiers := [], keys := [],
      execute_path := some (pyStrip (raw.drop 8)) }
  else if (str "|").isPrefixOf raw ∧ (str "|").isSuffixOf raw
          ∧ 2 < raw.length then
    let content := (raw.drop 1).dropLast
    if is_url content then
      { command_type := CommandType.url, raw_input := raw,
        modifiers := [], keys := [], url := some content }
    else
      { command_type := CommandType.file_path, raw_input := raw,
        modifiers := [], keys := [], file_path := some content }
  else
    match splitFirstChar '"' raw with
    | some (pre0, rest) =>
      match splitLastChar '"' rest with
      | some (mid, _) =>
        let pfx := pyStrip (rstripPlus pre0)
        if pfx = [] ∧ is_url mid then
          { command_type := CommandType.url, raw_input := raw,
            modifiers := [], keys := [], url := some mid }
        else
          let pfxKeys := if pfx = [] then [] else mapKeyTokens pfx
          { command_type := CommandType.text, raw_input := raw,
            modifiers := pfxKeys.filter is_modifier,
            keys := pfxKeys.filter (fun k => !is_modifier k),
            text_content := some mid }
      | none => defaultKeystroke t raw
    | none => defaultKeystroke t raw

/-- `CommandParser.parse` of the V2 serial variant
(`PC-Software/V2/kb_handler.py`, lines 95-117): ready signal, `EXECUTE+`,
then a quote rule using `split('"', 2)` (a single `"` suffices and the
literal text is what lies between the first and second quote; no URL case
and no layout transformation on the prefix), then the default rule. -/
def kbParse (t : List (Str × Str)) (raw0 : Str) : KeyCommand :=
  let raw := pyStrip raw0
  if raw ∈ READY_SIGNALS then
    { command_type := CommandType.ready_signal, raw_input := raw,
      modifiers := [], keys := [] }
  else if (str "EXECUTE+").isPrefixOf (asciiUpper raw) then
    { command_type := CommandType.execute, raw_input := raw,
      modifiers := [], keys := [],
      execute_path := some (pyStrip (raw.drop 8)) }
  else
    match splitFirstChar '"' raw with
    | some (p0, rest) =>
      let pfx := if p0 = [] then ([] : Str) else rstripPlus p0
      let text :=
        match splitFirstChar '"' rest with
        | some (p1, _) => p1
        | none => rest
      let pfxKeys := if pfx = [] then [] else mapKeyTokens pfx
      { command_type := CommandType.text, raw_input := raw,
        modifiers := pfxKeys.filter is_modifier,
        keys := pfxKeys.filter (fun k => !is_modifier k),
        text_content := some text }
    | none => defaultKeystroke t raw

/-- The non-decimal digit-class characters of the digit model: accepted by
Python `str.isdigit()` (Unicode `Numeric_Type=Digit`) but rejected by
`int()`.  The full Unicode table is abbreviated to the superscript digits
`¹`, `²`, `³`; every character outside the model's ranges is treated as a
non-digit. -/
def nonDecimalDigitChars : List Char := ['¹', '²', '³']

/-- The decimal (`Nd`) digits of the digit model with their values:
ASCII `0`-`9` plus the Arabic-Indic digits `٠`-`٩` (U+0660-U+0669) as
representatives of the non-ASCII `Nd` ranges.  Both `str.isdigit()` and
`int()` accept these. -/
def decimalDigitVal (c : Char) : Option Nat :=
  if 48 ≤ c.toNat ∧ c.toNat ≤ 57 then some (c.toNat - 48)
  else if 1632 ≤ c.toNat ∧ c.toNat ≤ 1641 then some (c.toNat - 1632)
  else none

/-- Python `str.isdigit()` on one character, full model: decimal digits or
digit-class characters. -/
def pyIsDigitFull (c : Char) : Bool :=
  (decimalDigitVal c).isSome || c ∈ nonDecimalDigitChars

/-- Python `str.isdigit()` on a string, full model. -/
def pyIsDigitsFull (s : Str) : Bool :=
  !s.isEmpty && s.all pyIsDigitFull

/-- Python `int(s)` on a non-empty string that passed `isdigit()`: the
decimal value when every character is an `Nd` digit, `ValueError` when a
digit-class character such as `²` is present (the exact Python error text
is abstracted to `ValueError`). -/
def pyIntOfDigits (s : Str) : Except Str Nat :=
  if s.all (fun c => (decimalDigitVal c).isSome) then
    Except.ok (s.foldl (fun acc c => acc * 10 + (decimalDigitVal c).getD 0) 0)
  else Except.error (str "ValueError")

/-- `CommandParser.parse` of the BLE variant with the full digit model:
the delay branch (`command_handler.py` lines 101-105) checks
`delay_str.isdigit()` with Python's full digit classes and then runs
`int(delay_str)`, which raises `ValueError` on digit-class characters that
are not decimal digits — the raise propagates out of `parse`
(`Except.error`).  When the delay branch is not taken, no other branch
depends on the digit classes or can raise, so the result is that of the
ASCII-model `parse`: the guard here fails exactly when the source falls
through the delay branch, and the ASCII guard inside `parse` then fails
too (ASCII digits are decimal digits, see `pyIsDigits_imp_full`). -/
def parsePy (t : List (Str × Str)) (raw0 : Str) : Except Str KeyCommand :=
  let raw := pyStrip raw0
  if raw ∈ READY_SIGNALS then
    Except.ok { command_type := CommandType.ready_signal, raw_input := raw,
                modifiers := [], keys := [] }
  else if (str "D").isPrefixOf (asciiUpper raw) ∧ 1 < raw.length
          ∧ pyIsDigitsFull raw.tail then
    match pyIntOfDigits raw.tail with
    | Except.ok n =>
      Except.ok { command_type := CommandType.delay, raw_input := raw,
                  modifiers := [], keys := [], delay_ms := some n }
    | Except.error e => Except.error e
  else Except.ok (parse t raw0)

/-- `splitFirstChar` consumes at least the separator, so the remainder is
strictly shorter (used for termination of the frame-reader drain loop). -/
theorem splitFirstChar_length (sep : Char) :
    ∀ (s : Str) {l r : Str}, splitFirstChar sep s = some (l, r) →
      r.length < s.length
  | [], l, r, h => by simp [splitFirstChar] at h
  | c :: cs, l, r, h => by
    by_cases hc : c = sep
    · simp only [splitFirstChar, if_pos hc, Option.some.injEq,
        Prod.mk.injEq] at h
      rw [← h.2]
      simp
    · simp only [splitFirstChar, if_neg hc] at h
      cases hsplit : splitFirstChar sep cs with
      | none => rw [hsplit] at h; exact absurd h (by simp)
      | some p =>
        obtain ⟨l', r'⟩ := p
        rw [hsplit] at h
        simp only [Option.some.injEq, Prod.mk.injEq] at h
        have ih := splitFirstChar_length sep cs hsplit
        rw [← h.2]
        simp only [List.length_cons]
        omega

/-- The buffer-and-split loop of the BLE notification handler
(`bluetooth_comm.py` lines 151-158): repeatedly split the buffer at the
first newline, strip each extracted line, keep the non-empty ones in order,
and return the final (newline-free) buffer remainder together with the
emitted lines. -/
def drainBuffer (buf : Str) : Str × List Str :=
  match h : splitFirstChar '\n' buf with
  | none => (buf, [])
  | some (line, rest) =>
    let out := drainBuffer rest
    let t := pyStrip line
    (out.1, (if t = [] then [] else [t]) ++ out.2)
termination_by buf.length
decreasing_by exact splitFirstChar_length '\n' buf h

/-- One text chunk appended to the carried buffer and drained. -/
def feedChunk (buf chunk : Str) : Str × List Str :=
  drainBuffer (buf ++ chunk)

/-- Feeding a list of text chunks one at a time, threading the buffer and
concatenating the emitted lines in order. -/
def feedAll (buf : Str) : List Str → Str × List Str
  | [] => (buf, [])
  | c :: cs =>
    let o1 := feedChunk buf c
    let o2 := feedAll o1.1 cs
    (o2.1, o1.2 ++ o2.2)

/-- Strict UTF-8 decoding of a byte list, as Python `bytes.decode('utf-8')`:
`none` models a raised `UnicodeDecodeError` (truncated sequences, stray
continuation bytes, overlong encodings, surrogates and out-of-range lead
bytes are all rejected). -/
def utf8DecodePy : List Nat → Option Str
  | [] => some []
  | b :: rest =>
    if b < 128 then
      (utf8DecodePy rest).map (fun s => Char.ofNat b :: s)
    else if b < 194 then none
    else if b < 224 then
      match rest with
      | b2 :: rest2 =>
        if 128 ≤ b2 ∧ b2 < 192 then
          (utf8DecodePy rest2).map
            (fun s => Char.ofNat ((b - 192) * 64 + (b2 - 128)) :: s)
        else none
      | [] => none
    else if b < 240 then
      match rest with
      | b2 :: b3 :: rest3 =>
        if (128 ≤ b2 ∧ b2 < 192) ∧ (128 ≤ b3 ∧ b3 < 192)
            ∧ (b ≠ 224 ∨ 160 ≤ b2) ∧ (b ≠ 237 ∨ b2 < 160) then
          (utf8DecodePy rest3).map
            (fun s =>
              Char.ofNat ((b - 224) * 4096 + (b2 - 128) * 64 + (b3 - 128)) :: s)
        else none
      | _ => none
    else if b < 245 then
      match rest with
      | b2 :: b3 :: b4 :: rest4 =>
        if (128 ≤ b2 ∧ b2 < 192) ∧ (128 ≤ b3 ∧ b3 < 192)
            ∧ (128 ≤ b4 ∧ b4 < 192)
            ∧ (b ≠ 240 ∨ 144 ≤ b2) ∧ (b ≠ 244 ∨ b2 < 144) then
          (utf8DecodePy rest4).map
            (fun s =>
              Char.ofNat ((b - 240) * 262144 + (b2 - 128) * 4096
                + (b3 - 128) * 64 + (b4 - 128)) :: s)
        else none
      | _ => none
    else none

/-- The BLE notification handler at the byte level
(`bluetooth_comm.py` lines 146-173): the chunk is decoded as UTF-8 first;
a decode failure is caught by the surrounding `except`, so the chunk is
dropped whole, the buffer is left untouched and no line is emitted. -/
def bleFeedBytes (buf : Str) (data : List Nat) : Str × List Str :=
  match utf8DecodePy data with
  | none => (buf, [])
  | some s => drainBuffer (buf ++ s)

/-- Feeding a list of byte chunks one at a time through the notification
handler. -/
def bleFeedBytesAll (buf : Str) : List (List Nat) → Str × List Str
  | [] => (buf, [])
  | d :: ds =>
    let o1 := bleFeedBytes buf d
    let o2 := bleFeedBytesAll o1.1 ds
    (o2.1, o1.2 ++ o2.2)

/-- One step of the session ready latch on a non-empty stripped line
(`serial_comm.py` lines 80-84 and `bluetooth_comm.py` lines 161-166):
a ready-signal line with the latch down raises the latch (no execution);
otherwise, when the latch is up, the line goes to `_process_command`,
which invokes the executor unless the parsed command is a ready signal.
Returns (new latch state, whether the executor was invoked). -/
def sessionStep (t : List (Str × Str)) (r : Bool) (line : Str) :
    Bool × Bool :=
  if line ∈ READY_SIGNALS ∧ r = false then (true, false)
  else if r = true then
    (r, decide ((parse t line).command_type ≠ CommandType.ready_signal))
  else (r, false)

/-- The session loop over a list of incoming lines.  Returns the final
latch state and a trace recording, for each line, the latch state when the
line arrived and whether the executor was invoked on it. -/
def sessionRun (t : List (Str × Str)) (r : Bool) :
    List Str → Bool × List (Bool × Bool)
  | [] => (r, [])
  | line :: rest =>
    let s := sessionStep t r line
    let o := sessionRun t s.1 rest
    (o.1, (r, s.2) :: o.2)

/-- `FN_VK_MAPPING` (values spelled out from `VK_CODES`). -/
def FN_VK_MAPPING : List (Str × Nat) :=
  [(str "f5", 0xB2), (str "f6", 0xB1), (str "f7", 0xB3), (str "f8", 0xB0),
   (str "f10", 0xAE), (str "f11", 0xAF), (str "f12", 0xAD)]

/-- `'+'.join(...)`. -/
def joinPlus (ks : List Str) : Str :=
  (ks.intersperse (str "+")).flatten

/-- `s[:n] + '...' if len(s) > n else s`. -/
def truncateAt (n : Nat) (s : Str) : Str :=
  if n < s.length then s.take n ++ str "..." else s

/-- Oracle for the side-effecting OS primitives the executor calls.
An `.error e` result models the call raising an exception whose string
form is `e`; `.ok ()` models normal return. -/
structure Effects where
  osName : Str
  sysname : Str
  sleep : Except Str Unit
  startfile : Str → Except Str Unit
  which : Str → Option Str
  popen : List Str → Except Str Unit
  popenShell : Str → Except Str Unit
  browserOpen : Str → Except Str Unit
  pathExists : Str → Bool
  kbPress : Str → Except Str Unit
  kbPressAndRelease : Str → Except Str Unit
  kbRelease : Str → Except Str Unit
  kbWrite : Str → Except Str Unit
  keybdEvent : Nat → Nat → Except Str Unit

/-- `kb.press_and_release` applied to each key of a list in order, stopping
at the first raised exception (the `for` loops of the fn paths). -/
def pressEach (f : Str → Except Str Unit) : List Str → Except Str Unit
  | [] => Except.ok ()
  | k :: ks =>
    match f k with
    | Except.ok _ => pressEach f ks
    | Except.error e => Except.error e

/-- `KeyExecutor._execute_delay`.  A `None` delay makes the arithmetic in
`time.sleep(delay_ms / 1000.0)` raise inside the branch `try`, reported
with the branch label (the exact Python exception text is abstracted to
`TypeError`). -/
def executeDelay (fx : Effects) (d : Option Nat) : Bool × Str :=
  match d with
  | none => (false, str "Delay failed: TypeError")
  | some ms =>
    match fx.sleep with
    | Except.ok _ => (true, str "Delayed: " ++ (Nat.repr ms).data ++ str "ms")
    | Except.error e => (false, str "Delay failed: " ++ e)

/-- `KeyExecutor._execute_program`: on Windows try `os.startfile`, on a
raise fall back (bare `except`) to resolving via `shutil.which` and
`subprocess.Popen`; elsewhere go straight to `which`/`Popen`.  Any raise
escaping these is caught by the branch `try`. -/
def executeProgram (fx : Effects) (p : Option Str) : Bool × Str :=
  match p with
  | none => (false, str "Execute failed: TypeError")
  | some path =>
    let body : Except Str Unit :=
      if fx.osName = str "nt" then
        match fx.startfile path with
        | Except.ok _ => Except.ok ()
        | Except.error _ =>
          match fx.which path with
          | some prog => fx.popen [prog]
          | none => fx.popenShell path
      else
        match fx.which path with
        | some prog => fx.popen [prog]
        | none => fx.popenShell path
    match body with
    | Except.ok _ => (true, str "Executed: " ++ path)
    | Except.error e => (false, str "Execute failed: " ++ e)

/-- `KeyExecutor._execute_url`. -/
def executeUrl (fx : Effects) (u : Option Str) : Bool × Str :=
  match u with
  | none => (false, str "URL open failed: TypeError")
  | some url0 =>
    let url :=
      if !((str "http://").isPrefixOf (asciiLower url0)
          || (str "https://").isPrefixOf (asciiLower url0)
          || (str "ftp://").isPrefixOf (asciiLower url0)) then
        str "https://" ++ url0
      else url0
    match fx.browserOpen url with
    | Except.ok _ => (true, str "Opened URL: " ++ truncateAt 50 url)
    | Except.error e => (false, str "URL open failed: " ++ e)

/-- `KeyExecutor._execute_file_path`: fail fast when the path does not
exist, then open with the platform handler. -/
def executeFilePath (fx : Effects) (p : Option Str) : Bool × Str :=
  match p with
  | none => (false, str "Path open failed: TypeError")
  | some path =>
    if fx.pathExists path = false then
      (false, str "Path not found: " ++ path)
    else
      let body : Except Str Unit :=
        if fx.osName = str "nt" then fx.startfile path
        else if fx.osName = str "posix" then
          if fx.sysname = str "Darwin" then fx.popen [str "open", path]
          else fx.popen [str "xdg-open", path]
        else Except.ok ()
      match body with
      | Except.ok _ => (true, str "Opened: " ++ truncateAt 50 path)
      | Except.error e => (false, str "Path open failed: " ++ e)

/-- `KeyExecutor._execute_cmd`: spawn a console running the text; on a
non-Darwin POSIX system try the first known terminal found on the path
(silently succeeding when none is found). -/
def executeCmd (fx : Effects) (c : Option Str) : Bool × Str :=
  match c with
  | none => (false, str "CMD failed: TypeError")
  | some command =>
    let body : Except Str Unit :=
      if fx.osName = str "nt" then fx.popen [str "cmd", str "/c", command]
      else if fx.sysname = str "Darwin" then
        fx.popen [str "osascript", str "-e",
          str "tell application \"Terminal\" to do script \""
            ++ command ++ str "\""]
      else
        match [str "gnome-terminal", str "konsole", str "xterm"].find?
            (fun term => (fx.which term).isSome) with
        | some term => fx.popen [term, str "-e", command]
        | none => Except.ok ()
    match body with
    | Except.ok _ => (true, str "CMD executed: " ++ truncateAt 50 command)
    | Except.error e => (false, str "CMD failed: " ++ e)

/-- `KeyExecutor._execute_text` (no branch `try`: raises propagate to the
caller).  A `None` text content makes the preview computation raise
(`len(None)`), modelled as `TypeError`. -/
def executeText (fx : Effects) (cmd : KeyCommand) : Except Str (Bool × Str) :=
  let chord := cmd.modifiers ++ cmd.keys
  let step1 : Except Str Unit :=
    if chord ≠ [] then
      match fx.kbPressAndRelease (joinPlus chord) with
      | Except.ok _ => fx.sleep
      | Except.error e => Except.error e
    else Except.ok ()
  match step1 with
  | Except.error e => Except.error e
  | Except.ok _ =>
    match cmd.text_content with
    | none => Except.error (str "TypeError")
    | some t =>
      match (if t ≠ [] then fx.kbWrite t else Except.ok ()) with
      | Except.error e => Except.error e
      | Except.ok _ => Except.ok (true, str "Typed: " ++ truncateAt 55 t)

/-- The shared tail of `KeyExecutor._execute_fn_combination`'s `except`
arm: press-and-release each remaining key individually and report success
(raises here propagate to the top-level catch). -/
def fnFallback (fx : Effects) (fnKeys : List Str) : Except Str (Bool × Str) :=
  match pressEach fx.kbPressAndRelease fnKeys with
  | Except.error e => Except.error e
  | Except.ok _ =>
    Except.ok (true, str "Pressed (fallback): " ++ joinPlus fnKeys)

/-- The `except` arm of `KeyExecutor._execute_fn_combination`: when the
remaining keys are exactly one key with a known VK code (and the code is
truthy), synthesize the raw key-down/key-up event pair; otherwise run the
individual-press fallback. -/
def fnExceptArm (fx : Effects) (fnKeys : List Str) : Except Str (Bool × Str) :=
  match fnKeys with
  | [k] =>
    match lookupAssoc k FN_VK_MAPPING with
    | some vk =>
      if vk ≠ 0 then
        match fx.keybdEvent vk 0 with
        | Except.error e => Except.error e
        | Except.ok _ =>
          match fx.keybdEvent vk 2 with
          | Except.error e => Except.error e
          | Except.ok _ => Except.ok (true, str "Pressed (VK): fn+" ++ k)
      else fnFallback fx [k]
    | none => fnFallback fx [k]
  | _ => fnFallback fx fnKeys

/-- `KeyExecutor._execute_fn_combination`: try a virtual `fn` hold; on any
raise (bare `except`) run the `fnExceptArm` recovery. -/
def executeFn (fx : Effects) (keys : List Str) : Except Str (Bool × Str) :=
  let fnKeys := keys.filter (fun k => k ≠ str "fn")
  let tryBody : Except Str Unit :=
    match fx.kbPress (str "fn") with
    | Except.error e => Except.error e
    | Except.ok _ =>
      match pressEach fx.kbPressAndRelease fnKeys with
      | Except.error e => Except.error e
      | Except.ok _ => fx.kbRelease (str "fn")
  match tryBody with
  | Except.ok _ => Except.ok (true, str "Pressed: fn+" ++ joinPlus fnKeys)
  | Except.error _ => fnExceptArm fx fnKeys

/-- `KeyExecutor._execute_keystroke` (no branch `try`: raises propagate). -/
def executeKeystroke (fx : Effects) (cmd : KeyCommand) :
    Except Str (Bool × Str) :=
  let allKeys := cmd.modifiers ++ cmd.keys
  if allKeys = [] then Except.ok (false, str "No keys")
  else if str "fn" ∈ allKeys then executeFn fx allKeys
  else
    match fx.kbPressAndRelease (joinPlus allKeys) with
    | Except.ok _ => Except.ok (true, str "Pressed: " ++ joinPlus allKeys)
    | Except.error e => Except.error e

/-- The dispatch inside the top-level `try` of `KeyExecutor.execute`
(BLE variant, `command_handler.py` lines 151-171; the V2 serial variant is
the sub-dispatch over its four command types with the same structure). -/
def executeBody (fx : Effects) (cmd : KeyCommand) : Except Str (Bool × Str) :=
  match cmd.command_type with
  | CommandType.ready_signal => Except.ok (true, str "Ready signal")
  | CommandType.delay => Except.ok (executeDelay fx cmd.delay_ms)
  | CommandType.execute => Except.ok (executeProgram fx cmd.execute_path)
  | CommandType.url => Except.ok (executeUrl fx cmd.url)
  | CommandType.file_path => Except.ok (executeFilePath fx cmd.file_path)
  | CommandType.cmd => Except.ok (executeCmd fx cmd.cmd_command)
  | CommandType.text => executeText fx cmd
  | CommandType.keystroke => executeKeystroke fx cmd

/-- `KeyExecutor.execute`: the top-level catch converts any raise escaping
the dispatch into `(False, "Error: <detail>")`. -/
def execute (fx : Effects) (cmd : KeyCommand) : Bool × Str :=
  match executeBody fx cmd with
  | Except.ok r => r
  | Except.error e => (false, str "Error: " ++ e)

/-- `TelemetryBuffer` state.  The three smoothed metrics are `None` until
the first call (the source checks only `self.cpu is None` and always sets
the three together, so they are modelled as one optional triple).  Floats
are modelled as exact rationals. -/
structure TelemetryBuffer where
  alpha : ℚ
  max_change_per_sec : ℚ
  vals : Option (ℚ × ℚ × ℚ)
  last_update : ℚ

/-- `TelemetryBuffer._limit_change` (`self.max_change_per_sec` passed as
`mr`). -/
def limit_change (mr newVal oldVal dt : ℚ) : ℚ :=
  let maxChange := mr * dt
  let diff := newVal - oldVal
  if |diff| > maxChange then
    oldVal + (if diff > 0 then maxChange else -maxChange)
  else newVal

/-- `TelemetryBuffer.update`, with the wall clock passed explicitly as
`now` (the source reads `time.time()`).  Returns the new buffer state and
the returned triple. -/
def update (tb : TelemetryBuffer) (cpu gpu ram now : ℚ) :
    TelemetryBuffer × (ℚ × ℚ × ℚ) :=
  let dt := now - tb.last_update
  match tb.vals with
  | none =>
    ({ tb with vals := some (cpu, gpu, ram), last_update := now },
     (cpu, gpu, ram))
  | some (pc, pg, pr) =>
    let sc := tb.alpha * cpu + (1 - tb.alpha) * pc
    let sg := tb.alpha * gpu + (1 - tb.alpha) * pg
    let sr := tb.alpha * ram + (1 - tb.alpha) * pr
    let nc := limit_change tb.max_change_per_sec sc pc dt
    let ng := limit_change tb.max_change_per_sec sg pg dt
    let nr := limit_change tb.max_change_per_sec sr pr dt
    ({ tb with vals := some (nc, ng, nr), last_update := now },
     (nc, ng, nr))

/-- A sequence of `update` calls, each given its raw triple and wall-clock
time; returns the final state and the returned triples in order. -/
def runUpdates (tb : TelemetryBuffer) :
    List (ℚ × ℚ × ℚ × ℚ) → TelemetryBuffer × List (ℚ × ℚ × ℚ)
  | [] => (tb, [])
  | (c, g, r, now) :: rest =>
    let o1 := update tb c g r now
    let o2 := runUpdates o1.1 rest
    (o2.1, o1.2 :: o2.2)

/-- The call times of a telemetry call sequence are nondecreasing starting
from the buffer's `last_update` (wall clocks do not run backwards). -/
def Chrono : ℚ → List (ℚ × ℚ × ℚ × ℚ) → Prop
  | _, [] => True
  | t, (_, _, _, now) :: rest => t ≤ now ∧ Chrono now rest

/-- An effects oracle on which every OS primitive succeeds (used to
instantiate the executor theorems). -/
def fxAllOk : Effects where
  osName := str "nt"
  sysname := str "Linux"
  sleep := Except.ok ()
  startfile := fun _ => Except.ok ()
  which := fun _ => none
  popen := fun _ => Except.ok ()
  popenShell := fun _ => Except.ok ()
  browserOpen := fun _ => Except.ok ()
  pathExists := fun _ => true
  kbPress := fun _ => Except.ok ()
  kbPressAndRelease := fun _ => Except.ok ()
  kbRelease := fun _ => Except.ok ()
  kbWrite := fun _ => Except.ok ()
  keybdEvent := fun _ _ => Except.ok ()

/-- An effects oracle on which holding the virtual `fn` key raises (the
platform cannot represent an `fn` hold) while everything else succeeds. -/
def fxFnRaise : Effects :=
  { fxAllOk with kbPress := fun _ => Except.error (str "fn hold unsupported") }

/-- An effects oracle whose sleep primitive raises. -/
def fxSleepRaise : Effects :=
  { fxAllOk with sleep := Except.error (str "interrupted") }

/-! ### Basic lemmas about the string model -/

theorem toNat_ofNat_of_lt {n : Nat} (h : n < 55296) :
    (Char.ofNat n).toNat = n := by
  have hv : n.isValidChar := Or.inl h
  simp [Char.ofNat, hv, Char.ofNatAux, Char.toNat, UInt32.toNat,
    UInt32.ofNatCore]

theorem asciiLowerChar_lowerChar (c : Char) :
    asciiLowerChar (asciiLowerChar c) = asciiLowerChar c := by
  unfold asciiLowerChar
  by_cases h : 65 ≤ c.toNat ∧ c.toNat ≤ 90
  · rw [if_pos h]
    have ht : (Char.ofNat (c.toNat + 32)).toNat = c.toNat + 32 :=
      toNat_ofNat_of_lt (by omega)
    rw [if_neg (by rw [ht]; omega)]
  · rw [if_neg h, if_neg h]

theorem asciiUpperChar_lowerChar (c : Char) :
    asciiUpperChar (asciiLowerChar c) = asciiUpperChar c := by
  unfold asciiLowerChar asciiUpperChar
  by_cases h : 65 ≤ c.toNat ∧ c.toNat ≤ 90
  · rw [if_pos h]
    have ht : (Char.ofNat (c.toNat + 32)).toNat = c.toNat + 32 :=
      toNat_ofNat_of_lt (by omega)
    rw [if_pos (by rw [ht]; omega), if_neg (by omega), ht]
    have h32 : c.toNat + 32 - 32 = c.toNat := by omega
    rw [h32, Char.ofNat_toNat]
  · rw [if_neg h]

theorem asciiLower_lower (s : Str) :
    asciiLower (asciiLower s) = asciiLower s := by
  induction s with
  | nil => rfl
  | cons c cs ih =>
    simp only [asciiLower, List.map_cons] at *
    rw [asciiLowerChar_lowerChar]
    exact congrArg _ ih

theorem asciiUpper_lower (s : Str) :
    asciiUpper (asciiLower s) = asciiUpper s := by
  induction s with
  | nil => rfl
  | cons c cs ih =>
    simp only [asciiLower, asciiUpper, List.map_cons] at *
    rw [asciiUpperChar_lowerChar]
    exact congrArg _ ih

theorem lookupAssoc_mem {α : Type} {k : Str} {v : α} :
    ∀ {m : List (Str × α)}, lookupAssoc k m = some v →
      ∃ key, (key, v) ∈ m
  | [], h => by simp [lookupAssoc] at h
  | p :: rest, h => by
    by_cases hk : k = p.1
    · simp only [lookupAssoc, if_pos hk, Option.some.injEq] at h
      exact ⟨p.1, by simp [← h]⟩
    · simp only [lookupAssoc, if_neg hk] at h
      obtain ⟨key, hkey⟩ := lookupAssoc_mem h
      exact ⟨key, List.mem_cons_of_mem _ hkey⟩

theorem splitFirstChar_not_mem {sep : Char} :
    ∀ {s : Str}, sep ∉ s → splitFirstChar sep s = none
  | [], _ => rfl
  | c :: cs, h => by
    have hc : c ≠ sep := fun he => h (he ▸ List.mem_cons_self c cs)
    have hcs : sep ∉ cs := fun hm => h (List.mem_cons_of_mem c hm)
    simp only [splitFirstChar, if_neg hc, splitFirstChar_not_mem hcs]

theorem splitFirstChar_decompose {sep : Char} :
    ∀ {s l r : Str}, splitFirstChar sep s = some (l, r) →
      s = l ++ sep :: r ∧ sep ∉ l
  | [], l, r, h => by simp [splitFirstChar] at h
  | c :: cs, l, r, h => by
    by_cases hc : c = sep
    · simp only [splitFirstChar, if_pos hc, Option.some.injEq,
        Prod.mk.injEq] at h
      subst hc
      rw [← h.1, ← h.2]
      exact ⟨rfl, List.not_mem_nil c⟩
    · simp only [splitFirstChar, if_neg hc] at h
      cases hsplit : splitFirstChar sep cs with
      | none => rw [hsplit] at h; exact absurd h (by simp)
      | some p =>
        obtain ⟨l', r'⟩ := p
        rw [hsplit] at h
        simp only [Option.some.injEq, Prod.mk.injEq] at h
        obtain ⟨heq, hnm⟩ := splitFirstChar_decompose hsplit
        refine ⟨?_, ?_⟩
        · rw [← h.1, ← h.2, heq]; rfl
        · rw [← h.1]
          intro hm
          rcases List.mem_cons.mp hm with h1 | h2
          · exact hc h1.symm
          · exact hnm h2

theorem splitFirstChar_of_decompose {sep : Char} :
    ∀ {l : Str} (r : Str), sep ∉ l →
      splitFirstChar sep (l ++ sep :: r) = some (l, r)
  | [], r, _ => by simp [splitFirstChar]
  | c :: l', r, h => by
    have hc : c ≠ sep := fun he => h (he ▸ List.mem_cons_self c l')
    have hl : sep ∉ l' := fun hm => h (List.mem_cons_of_mem c hm)
    have ih : splitFirstChar sep (l' ++ sep :: r) = some (l', r) :=
      splitFirstChar_of_decompose r hl
    simp only [List.cons_append, splitFirstChar, if_neg hc, List.append_eq]
    rw [ih]

theorem splitFirstChar_append_some {sep : Char} :
    ∀ {s l r : Str} (t : Str), splitFirstChar sep s = some (l, r) →
      splitFirstChar sep (s ++ t) = some (l, r ++ t) := by
  intro s l r t h
  obtain ⟨heq, hnm⟩ := splitFirstChar_decompose h
  rw [heq, List.append_assoc, List.cons_append]
  exact splitFirstChar_of_decompose (r ++ t) hnm

theorem splitLastChar_of_decompose {sep : Char} {mid post : Str}
    (h : sep ∉ post) :
    splitLastChar sep (mid ++ sep :: post) = some (mid, post) := by
  unfold splitLastChar
  have hrev : sep ∉ post.reverse := fun hm => h (List.mem_reverse.mp hm)
  have : (mid ++ sep :: post).reverse = post.reverse ++ sep :: mid.reverse := by
    simp
  rw [this, splitFirstChar_of_decompose mid.reverse hrev]
  simp

theorem splitLastChar_not_mem {sep : Char} {s : Str} (h : sep ∉ s) :
    splitLastChar sep s = none := by
  unfold splitLastChar
  rw [splitFirstChar_not_mem (fun hm => h (List.mem_reverse.mp hm))]

/-! ### Frame-reader lemmas and claim C2 -/

theorem drainBuffer_of_none {buf : Str}
    (h : splitFirstChar '\n' buf = none) : drainBuffer buf = (buf, []) := by
  rw [drainBuffer]
  split
  · rfl
  · rename_i l r heq; rw [h] at heq; exact absurd heq (by simp)

theorem drainBuffer_of_some {buf l r : Str}
    (h : splitFirstChar '\n' buf = some (l, r)) :
    drainBuffer buf =
      ((drainBuffer r).1,
       (if pyStrip l = [] then [] else [pyStrip l]) ++ (drainBuffer r).2) := by
  rw [drainBuffer]
  split
  · rename_i heq; rw [h] at heq; exact absurd heq (by simp)
  · rename_i l' r' heq
    rw [h] at heq
    simp only [Option.some.injEq, Prod.mk.injEq] at heq
    rw [heq.1, heq.2]

theorem drainBuffer_append (buf extra : Str) :
    drainBuffer (buf ++ extra) =
      ((drainBuffer ((drainBuffer buf).1 ++ extra)).1,
       (drainBuffer buf).2 ++ (drainBuffer ((drainBuffer buf).1 ++ extra)).2) := by
  cases h : splitFirstChar '\n' buf with
  | none =>
    rw [drainBuffer_of_none h]
    simp
  | some p =>
    obtain ⟨l, r⟩ := p
    rw [drainBuffer_of_some h,
      drainBuffer_of_some (splitFirstChar_append_some extra h),
      drainBuffer_append r extra]
    simp [List.append_assoc]
termination_by buf.length
decreasing_by exact splitFirstChar_length '\n' buf h

theorem drainBuffer_fst_none (buf : Str) :
    splitFirstChar '\n' (drainBuffer buf).1 = none := by
  cases h : splitFirstChar '\n' buf with
  | none => rw [drainBuffer_of_none h]; exact h
  | some p =>
    obtain ⟨l, r⟩ := p
    rw [drainBuffer_of_some h]
    exact drainBuffer_fst_none r
termination_by buf.length
decreasing_by exact splitFirstChar_length '\n' buf h

theorem feedAll_eq_drain :
    ∀ (chunks : List Str) (buf : Str), splitFirstChar '\n' buf = none →
      feedAll buf chunks = drainBuffer (buf ++ chunks.flatten)
  | [], buf, h => by
    simp only [feedAll, List.flatten_nil, List.append_nil]
    exact (drainBuffer_of_none h).symm
  | c :: cs, buf, h => by
    simp only [feedAll, feedChunk, List.flatten_cons]
    rw [feedAll_eq_drain cs (drainBuffer (buf ++ c)).1 (drainBuffer_fst_none _)]
    rw [← List.append_assoc, drainBuffer_append (buf ++ c) cs.flatten]

/-- C2 (amended): at the level of the decoded text stream, the
buffer-and-split loop is chunk-invariant: feeding any list of text chunks
one at a time emits exactly the lines (and leaves exactly the buffer) of
one single feed of their concatenation. -/
theorem frameReader_chunk_invariant (chunks : List Str) :
    feedAll [] chunks = feedChunk [] chunks.flatten := by
  rw [feedAll_eq_drain chunks [] rfl, feedChunk]

/-- C2 (counterexample to the claim as stated): at the byte level the
notification handler is not chunk-invariant.  The byte sequence
`C3 A4 0A` (`"ä\n"`) fed as one chunk emits the line `"ä"`, but split as
`[C3] [A4 0A]` each chunk fails UTF-8 decoding, is dropped whole by the
handler's exception guard, and nothing is emitted. -/
theorem frameReader_byte_counterexample :
    ([195] ++ [164, 10] : List Nat) = [195, 164, 10] ∧
    (bleFeedBytesAll [] [[195], [164, 10]]).2 = [] ∧
    (bleFeedBytesAll [] [[195, 164, 10]]).2 = [[Char.ofNat 228]] ∧
    (bleFeedBytesAll [] [[195], [164, 10]]).2 ≠
      (bleFeedBytesAll [] [[195, 164, 10]]).2 := by
  have h1 : (bleFeedBytesAll [] [[195], [164, 10]]).2 = [] := rfl
  have hdec : utf8DecodePy [195, 164, 10] =
      some [Char.ofNat 228, Char.ofNat 10] := by decide
  have hb : bleFeedBytes [] [195, 164, 10] =
      drainBuffer ([] ++ [Char.ofNat 228, Char.ofNat 10]) := by
    unfold bleFeedBytes
    rw [hdec]
  have e1 : splitFirstChar '\n' (([] : Str) ++ [Char.ofNat 228, Char.ofNat 10])
      = some ([Char.ofNat 228], []) := by decide
  have hdrain : drainBuffer (([] : Str) ++ [Char.ofNat 228, Char.ofNat 10])
      = ([], [[Char.ofNat 228]]) := by
    rw [drainBuffer_of_some e1,
      drainBuffer_of_none (by decide : splitFirstChar '\n' ([] : Str) = none)]
    decide
  have h2 : (bleFeedBytesAll [] [[195, 164, 10]]).2 = [[Char.ofNat 228]] := by
    simp only [bleFeedBytesAll, hb, hdrain, List.append_nil]
  refine ⟨rfl, h1, h2, ?_⟩
  rw [h1, h2]
  simp

/-! ### Session ready-latch: claim C3 -/

theorem sessionStep_invoked {t : List (Str × Str)} {r : Bool} {line : Str}
    (h : (sessionStep t r line).2 = true) : r = true := by
  unfold sessionStep at h
  split at h
  · simp at h
  · split at h
    · assumption
    · simp at h

theorem sessionStep_mono {t : List (Str × Str)} {r : Bool} {line : Str}
    (h : r = true) : (sessionStep t r line).1 = true := by
  subst h
  simp [sessionStep]

theorem sessionStep_latch {t : List (Str × Str)} {r : Bool} {line : Str}
    (h : (sessionStep t r line).1 = true) :
    r = true ∨ line ∈ READY_SIGNALS := by
  unfold sessionStep at h
  split at h
  · rename_i hc; exact Or.inr hc.1
  · split at h
    · rename_i hr; exact Or.inl hr
    · exact Or.inl h

/-- C3: the handshake latch of the session loop.  Over any list of
incoming (non-empty, stripped) lines, starting from latch state `r`:
(1) the executor is invoked on a line only if the latch was already up
when that line arrived; (2) once up, the latch stays up for the rest of
the session (it resets only by starting a fresh session after disconnect);
(3) the latch can only come up through a line that is literally one of the
configured ready-signal strings. -/
theorem handshake_latch (t : List (Str × Str)) (lines : List Str) (r : Bool) :
    (∀ p ∈ (sessionRun t r lines).2, p.2 = true → p.1 = true) ∧
    (r = true → (sessionRun t r lines).1 = true) ∧
    ((sessionRun t r lines).1 = true →
      r = true ∨ ∃ l ∈ lines, l ∈ READY_SIGNALS) := by
  induction lines generalizing r with
  | nil =>
    exact ⟨by simp [sessionRun], fun h => h, fun h => Or.inl h⟩
  | cons line rest ih =>
    obtain ⟨ih1, ih2, ih3⟩ := ih (sessionStep t r line).1
    refine ⟨?_, ?_, ?_⟩
    · intro p hp hinv
      simp only [sessionRun, List.mem_cons] at hp
      rcases hp with hp | hp
      · rw [hp] at hinv ⊢
        exact sessionStep_invoked hinv
      · exact ih1 p hp hinv
    · intro hr
      simp only [sessionRun]
      exact ih2 (sessionStep_mono hr)
    · intro hfin
      simp only [sessionRun] at hfin
      rcases ih3 hfin with h1 | h2
      · rcases sessionStep_latch h1 with hr | hsig
        · exact Or.inl hr
        · exact Or.inr ⟨line, List.mem_cons_self _ _, hsig⟩
      · obtain ⟨l, hl, hsig⟩ := h2
        exact Or.inr ⟨l, List.mem_cons_of_mem _ hl, hsig⟩

/-- C3 (witness): concrete instantiation of `handshake_latch`.  With the
latch already up over the single line `CTRL+C`, the final latch state is
still up. -/
theorem handshake_latch_witness :
    (sessionRun usTransformations true [str "CTRL+C"]).1 = true :=
  (handshake_latch usTransformations [str "CTRL+C"] true).2.1 rfl

/-! ### Key-token mapping: claim C10 -/

theorem map_key_fixed_on_values :
    ∀ p ∈ KEY_MAPPINGS, map_key p.2 = p.2 := by decide

/-- C10: the key-token mapping is idempotent: mapping any token twice
equals mapping it once; every canonical value produced by the alias table
is a fixed point of the mapping; and a token whose upper-cased form is not
in the alias table passes through lower-cased. -/
theorem map_key_idempotent :
    (∀ k : Str, map_key (map_key k) = map_key k) ∧
    (∀ p ∈ KEY_MAPPINGS, map_key p.2 = p.2) ∧
    (∀ k : Str, lookupAssoc (asciiUpper k) KEY_MAPPINGS = none →
      map_key k = asciiLower k) := by
  have hlow : ∀ k : Str, lookupAssoc (asciiUpper k) KEY_MAPPINGS = none →
      map_key k = asciiLower k := by
    intro k h
    unfold map_key
    rw [h]
  refine ⟨?_, map_key_fixed_on_values, hlow⟩
  intro k
  cases h : lookupAssoc (asciiUpper k) KEY_MAPPINGS with
  | none =>
    rw [hlow k h]
    unfold map_key
    rw [asciiUpper_lower, h, asciiLower_lower]
  | some v =>
    have hk : map_key k = v := by unfold map_key; rw [h]
    rw [hk]
    obtain ⟨key, hmem⟩ := lookupAssoc_mem h
    exact map_key_fixed_on_values (key, v) hmem

/-- C10 (witness): concrete instantiations of `map_key_idempotent`: the
alias entry `CTRL ↦ ctrl` is a fixed point, and the unmapped token `Q@`
passes through lower-cased. -/
theorem map_key_idempotent_witness :
    map_key (str "ctrl") = str "ctrl" ∧ map_key (str "Q@") = str "q@" := by
  refine ⟨map_key_idempotent.2.1 (str "CTRL", str "ctrl") (by decide), ?_⟩
  have h := map_key_idempotent.2.2 (str "Q@") (by decide)
  rw [h]; decide

/-! ### Parser claims C1, C7, C5, C8 -/

theorem dropWhile_eq_self {α : Type} {p : α → Bool} :
    ∀ {l : List α}, (∀ c ∈ l, p c = false) → l.dropWhile p = l
  | [], _ => rfl
  | c :: cs, h => by
    simp only [List.dropWhile, h c (List.mem_cons_self c cs)]

theorem pyStrip_of_no_space {s : Str}
    (h : ∀ c ∈ s, pyIsSpace c = false) : pyStrip s = s := by
  unfold pyStrip
  rw [dropWhile_eq_self h,
    dropWhile_eq_self (fun c hc => h c (List.mem_reverse.mp hc)),
    List.reverse_reverse]

/-- C7 (amended, BLE parser): a stripped line whose first character is `D`
or `d` followed by one or more characters that are all ASCII digits, and
which is not a ready-signal literal, parses to a `Delay` command whose
milliseconds are the decimal value of the digits; no earlier or later rule
interferes. -/
theorem delay_rule (t : List (Str × Str)) (c : Char) (ds : Str)
    (hc : c = 'D' ∨ c = 'd')
    (hne : ds ≠ [])
    (hds : ∀ ch ∈ ds, 48 ≤ ch.toNat ∧ ch.toNat ≤ 57)
    (hready : (c :: ds) ∉ READY_SIGNALS) :
    parse t (c :: ds) =
      { command_type := CommandType.delay, raw_input := c :: ds,
        modifiers := [], keys := [],
        delay_ms := some (natOfDigits ds) } := by
  have hnospace : ∀ ch ∈ c :: ds, pyIsSpace ch = false := by
    intro ch hch
    rcases List.mem_cons.mp hch with rfl | hmem
    · rcases hc with rfl | rfl <;> decide
    · have := hds ch hmem
      unfold pyIsSpace
      simp only [Bool.or_eq_false_iff, decide_eq_false_iff_not]
      omega
  have hstrip : pyStrip (c :: ds) = c :: ds := pyStrip_of_no_space hnospace
  have hupper : asciiUpperChar c = 'D' := by
    rcases hc with rfl | rfl <;> decide
  have hguard : (str "D").isPrefixOf (asciiUpper (c :: ds)) = true
      ∧ 1 < (c :: ds).length ∧ pyIsDigits ds = true := by
    refine ⟨?_, ?_, ?_⟩
    · simp [asciiUpper, hupper, str, List.isPrefixOf]
    · have : 0 < ds.length := List.length_pos.mpr hne
      simp only [List.length_cons]
      omega
    · obtain ⟨d, ds', rfl⟩ := List.exists_cons_of_ne_nil hne
      simp only [pyIsDigits, List.isEmpty_cons, Bool.not_false,
        Bool.true_and, List.all_eq_true, decide_eq_true_eq]
      exact hds
  simp only [parse, hstrip, if_neg hready, List.tail_cons, if_pos hguard]

/-- C7 (witness): `parse("D250")` is a Delay command of 250 ms. -/
theorem delay_rule_witness :
    parse usTransformations (str "D250") =
      { command_type := CommandType.delay, raw_input := str "D250",
        modifiers := [], keys := [], delay_ms := some 250 } := by
  have h := delay_rule usTransformations 'D' (str "250") (Or.inl rfl)
    (by decide) (by decide) (by decide)
  exact h.trans (by decide)

/-- C7 (counterexample to the claim as stated): the V2 serial parser
(`kb_handler.py`), cited by the claim, has no delay rule at all:
`parse("D250")` there is a Keystroke on the token `d250`, not a Delay. -/
theorem delay_rule_kb_counterexample :
    kbParse usTransformations (str "D250") =
      { command_type := CommandType.keystroke, raw_input := str "D250",
        modifiers := [], keys := [str "d250"] } ∧
    CommandType.keystroke ≠ CommandType.delay := by decide

theorem pyIsDigits_imp_full {s : Str} (h : pyIsDigits s = true) :
    pyIsDigitsFull s = true := by
  simp only [pyIsDigits, Bool.and_eq_true, Bool.not_eq_true',
    List.all_eq_true, decide_eq_true_eq] at h
  simp only [pyIsDigitsFull, Bool.and_eq_true, Bool.not_eq_true',
    List.all_eq_true]
  refine ⟨h.1, fun c hc => ?_⟩
  have hd := h.2 c hc
  simp only [pyIsDigitFull, Bool.or_eq_true]
  left
  simp only [decimalDigitVal, if_pos hd, Option.isSome_some]

/-- C1 (counterexample to the claim as stated): the BLE parser is not
total.  On `D²` the delay branch fires (`'²'.isdigit()` is true) and
`int('²')` raises `ValueError`, which propagates out of `parse`; and on
the Arabic-Indic digit line `D٢` Python returns `Delay(2)`, not a
Keystroke fall-through. -/
theorem parser_int_valueerror_counterexample :
    parsePy usTransformations (str "D²") =
      Except.error (str "ValueError") ∧
    parsePy usTransformations (str "D٢") = Except.ok
      { command_type := CommandType.delay, raw_input := str "D٢",
        modifiers := [], keys := [], delay_ms := some 2 } := by
  exact ⟨rfl, rfl⟩

/-- C1 (amended): the V2 serial parser is total; the BLE parser is total
except in its delay branch — an error result of `parsePy` arises only
when the stripped line starts with `D`/`d` and its remaining characters
all pass `str.isdigit()` (full digit model) yet `int()` rejects them,
carrying exactly the `int()` failure.  A stripped line matching none of
the special forms — ready signal, delay shape (full `isdigit` model),
`<...>` shell, `EXECUTE+` prefix, `|...|` wrapper, quoted text (no `"` at
all) — parses without failing, falling through to the default rule in
both variants and yielding the Keystroke command built from the
`+`-separated tokens (stripped, mapped through the key table,
layout-transformed, partitioned by the modifier set). -/
theorem parser_default_rule (t : List (Str × Str)) :
    (∀ (s e : Str), parsePy t s = Except.error e →
      (str "D").isPrefixOf (asciiUpper (pyStrip s))
        ∧ 1 < (pyStrip s).length ∧ pyIsDigitsFull (pyStrip s).tail
        ∧ pyIntOfDigits (pyStrip s).tail = Except.error e) ∧
    (∀ s : Str, pyStrip s ∉ READY_SIGNALS →
      ¬((str "D").isPrefixOf (asciiUpper (pyStrip s))
          ∧ 1 < (pyStrip s).length ∧ pyIsDigitsFull (pyStrip s).tail) →
      ¬((str "<").isPrefixOf (pyStrip s)
          ∧ (str ">").isSuffixOf (pyStrip s)) →
      ¬((str "EXECUTE+").isPrefixOf (asciiUpper (pyStrip s)) = true) →
      ¬((str "|").isPrefixOf (pyStrip s)
          ∧ (str "|").isSuffixOf (pyStrip s) ∧ 2 < (pyStrip s).length) →
      '"' ∉ pyStrip s →
      parsePy t s = Except.ok
        { command_type := CommandType.keystroke, raw_input := pyStrip s,
          modifiers := (transform_keys t (mapKeyTokens (pyStrip s))).filter
            is_modifier,
          keys := (transform_keys t (mapKeyTokens (pyStrip s))).filter
            (fun k => !is_modifier k) } ∧
      kbParse t s =
        { command_type := CommandType.keystroke, raw_input := pyStrip s,
          modifiers := (transform_keys t (mapKeyTokens (pyStrip s))).filter
            is_modifier,
          keys := (transform_keys t (mapKeyTokens (pyStrip s))).filter
            (fun k => !is_modifier k) }) := by
  constructor
  · intro s e h
    simp only [parsePy] at h
    split at h
    · exact absurd h (by simp)
    · split at h
      · rename_i hguard
        split at h
        · exact absurd h (by simp)
        · rename_i e' heq
          injection h with h2
          rw [← h2]
          exact ⟨hguard.1, hguard.2.1, hguard.2.2, heq⟩
      · exact absurd h (by simp)
  · intro s h1 h2 h3 h4 h5 h6
    have h2a : ¬((str "D").isPrefixOf (asciiUpper (pyStrip s))
        ∧ 1 < (pyStrip s).length ∧ pyIsDigits (pyStrip s).tail) := by
      intro hc
      exact h2 ⟨hc.1, hc.2.1, pyIsDigits_imp_full hc.2.2⟩
    have hq := splitFirstChar_not_mem h6
    have hp : parse t s =
        { command_type := CommandType.keystroke, raw_input := pyStrip s,
          modifiers := (transform_keys t (mapKeyTokens (pyStrip s))).filter
            is_modifier,
          keys := (transform_keys t (mapKeyTokens (pyStrip s))).filter
            (fun k => !is_modifier k) } := by
      simp only [parse, if_neg h1, if_neg h2a, if_neg h3, if_neg h4,
        if_neg h5, hq, defaultKeystroke]
    have hk : kbParse t s =
        { command_type := CommandType.keystroke, raw_input := pyStrip s,
          modifiers := (transform_keys t (mapKeyTokens (pyStrip s))).filter
            is_modifier,
          keys := (transform_keys t (mapKeyTokens (pyStrip s))).filter
            (fun k => !is_modifier k) } := by
      simp only [kbParse, if_neg h1, if_neg h4, hq, defaultKeystroke]
    refine ⟨?_, hk⟩
    simp only [parsePy, if_neg h1, if_neg h2, hp]

/-- C1 (witness): `CTRL+C` matches no special form and parses without
failing to the Keystroke `ctrl` + `c` in both parser variants; and the
error on `D²` is exactly the `int()` failure of the delay branch. -/
theorem parser_default_rule_witness :
    (parsePy usTransformations (str "CTRL+C") = Except.ok
      { command_type := CommandType.keystroke, raw_input := str "CTRL+C",
        modifiers := [str "ctrl"], keys := [str "c"] } ∧
     kbParse usTransformations (str "CTRL+C") =
      { command_type := CommandType.keystroke, raw_input := str "CTRL+C",
        modifiers := [str "ctrl"], keys := [str "c"] }) ∧
    pyIntOfDigits (pyStrip (str "D²")).tail =
      Except.error (str "ValueError") := by
  have h := (parser_default_rule usTransformations).2 (str "CTRL+C")
    (by decide) (by decide) (by decide) (by decide) (by decide) (by decide)
  have he := (parser_default_rule usTransformations).1 (str "D²")
    (str "ValueError") rfl
  exact ⟨⟨h.1.trans (by rfl), h.2.trans (by decide)⟩, he.2.2.2⟩

theorem parse_quote_branch (t : List (Str × Str)) (pre mid post : Str)
    (hpre : '"' ∉ pre) (hpost : '"' ∉ post)
    (hstrip : pyStrip (pre ++ ('"' :: (mid ++ ('"' :: post))))
      = pre ++ ('"' :: (mid ++ ('"' :: post))))
    (h1 : pre ++ ('"' :: (mid ++ ('"' :: post))) ∉ READY_SIGNALS)
    (h2 : ¬((str "D").isPrefixOf
              (asciiUpper (pre ++ ('"' :: (mid ++ ('"' :: post)))))
            ∧ 1 < (pre ++ ('"' :: (mid ++ ('"' :: post)))).length
            ∧ pyIsDigits (pre ++ ('"' :: (mid ++ ('"' :: post)))).tail))
    (h3 : ¬((str "<").isPrefixOf (pre ++ ('"' :: (mid ++ ('"' :: post))))
            ∧ (str ">").isSuffixOf (pre ++ ('"' :: (mid ++ ('"' :: post))))))
    (h4 : ¬((str "EXECUTE+").isPrefixOf
              (asciiUpper (pre ++ ('"' :: (mid ++ ('"' :: post))))) = true))
    (h5 : ¬((str "|").isPrefixOf (pre ++ ('"' :: (mid ++ ('"' :: post))))
            ∧ (str "|").isSuffixOf (pre ++ ('"' :: (mid ++ ('"' :: post))))
            ∧ 2 < (pre ++ ('"' :: (mid ++ ('"' :: post)))).length)) :
    parse t (pre ++ ('"' :: (mid ++ ('"' :: post)))) =
      (if pyStrip (rstripPlus pre) = [] ∧ is_url mid then
        { command_type := CommandType.url,
          raw_input := pre ++ ('"' :: (mid ++ ('"' :: post))),
          modifiers := [], keys := [], url := some mid }
      else
        { command_type := CommandType.text,
          raw_input := pre ++ ('"' :: (mid ++ ('"' :: post))),
          modifiers := (if pyStrip (rstripPlus pre) = [] then []
            else mapKeyTokens (pyStrip (rstripPlus pre))).filter is_modifier,
          keys := (if pyStrip (rstripPlus pre) = [] then []
            else mapKeyTokens (pyStrip (rstripPlus pre))).filter
              (fun k => !is_modifier k),
          text_content := some mid }) := by
  have hfst : splitFirstChar '"' (pre ++ ('"' :: (mid ++ ('"' :: post))))
      = some (pre, mid ++ ('"' :: post)) :=
    splitFirstChar_of_decompose _ hpre
  have hlst : splitLastChar '"' (mid ++ ('"' :: post)) = some (mid, post) :=
    splitLastChar_of_decompose hpost
  simp only [parse, hstrip, if_neg h1, if_neg h2, if_neg h3, if_neg h4,
    if_neg h5, hfst, hlst]

/-- C5 (amended, BLE parser): (only-if) a stripped line passing rules 1-5
with at most one `"` character never takes the quoted-text rule and parses
as a default Keystroke; (split) a line of the form
`pre "mid" post` (first quote after `pre`, last quote before `post`)
passing rules 1-5 parses to a command whose literal text is exactly `mid`;
the prefix before the first quote, with trailing `+` stripped (and then
whitespace-stripped), supplies the modifiers and keys, and when that
prefix is empty and `mid` looks like a URL, the result is a Url command
instead of Text.  (The V2 serial variant, also cited by the claim, behaves
differently — see the counterexample.) -/
theorem quoted_text_rule (t : List (Str × Str)) :
    (∀ pre mid post : Str, '"' ∉ pre → '"' ∉ post →
      pyStrip (pre ++ ('"' :: (mid ++ ('"' :: post))))
        = pre ++ ('"' :: (mid ++ ('"' :: post))) →
      pre ++ ('"' :: (mid ++ ('"' :: post))) ∉ READY_SIGNALS →
      ¬((str "D").isPrefixOf
          (asciiUpper (pre ++ ('"' :: (mid ++ ('"' :: post)))))
        ∧ 1 < (pre ++ ('"' :: (mid ++ ('"' :: post)))).length
        ∧ pyIsDigits (pre ++ ('"' :: (mid ++ ('"' :: post)))).tail) →
      ¬((str "<").isPrefixOf (pre ++ ('"' :: (mid ++ ('"' :: post))))
        ∧ (str ">").isSuffixOf (pre ++ ('"' :: (mid ++ ('"' :: post))))) →
      ¬((str "EXECUTE+").isPrefixOf
          (asciiUpper (pre ++ ('"' :: (mid ++ ('"' :: post))))) = true) →
      ¬((str "|").isPrefixOf (pre ++ ('"' :: (mid ++ ('"' :: post))))
        ∧ (str "|").isSuffixOf (pre ++ ('"' :: (mid ++ ('"' :: post))))
        ∧ 2 < (pre ++ ('"' :: (mid ++ ('"' :: post)))).length) →
      parse t (pre ++ ('"' :: (mid ++ ('"' :: post)))) =
        (if pyStrip (rstripPlus pre) = [] ∧ is_url mid then
          { command_type := CommandType.url,
            raw_input := pre ++ ('"' :: (mid ++ ('"' :: post))),
            modifiers := [], keys := [], url := some mid }
        else
          { command_type := CommandType.text,
            raw_input := pre ++ ('"' :: (mid ++ ('"' :: post))),
            modifiers := (if pyStrip (rstripPlus pre) = [] then []
              else mapKeyTokens (pyStrip (rstripPlus pre))).filter
                is_modifier,
            keys := (if pyStrip (rstripPlus pre) = [] then []
              else mapKeyTokens (pyStrip (rstripPlus pre))).filter
                (fun k => !is_modifier k),
            text_content := some mid })) ∧
    (∀ s : Str, pyStrip s = s → s ∉ READY_SIGNALS →
      ¬((str "D").isPrefixOf (asciiUpper s)
        ∧ 1 < s.length ∧ pyIsDigits s.tail) →
      ¬((str "<").isPrefixOf s ∧ (str ">").isSuffixOf s) →
      ¬((str "EXECUTE+").isPrefixOf (asciiUpper s) = true) →
      ¬((str "|").isPrefixOf s ∧ (str "|").isSuffixOf s ∧ 2 < s.length) →
      s.count '"' ≤ 1 →
      parse t s = defaultKeystroke t s) := by
  constructor
  · intro pre mid post hpre hpost hstrip h1 h2 h3 h4 h5
    exact parse_quote_branch t pre mid post hpre hpost hstrip h1 h2 h3 h4 h5
  · intro s hstrip h1 h2 h3 h4 h5 hcount
    cases hq : splitFirstChar '"' s with
    | none =>
      simp only [parse, hstrip, if_neg h1, if_neg h2, if_neg h3, if_neg h4,
        if_neg h5, hq]
    | some p =>
      obtain ⟨p0, rest⟩ := p
      obtain ⟨heq, hnm⟩ := splitFirstChar_decompose hq
      have hrest : '"' ∉ rest := by
        intro hmem
        have hc : s.count '"' = p0.count '"' + (rest.count '"' + 1) := by
          rw [heq, List.count_append, List.count_cons_self]
        have h0 : p0.count '"' = 0 := List.count_eq_zero.mpr hnm
        have h1' : 1 ≤ rest.count '"' := List.one_le_count_iff.mpr hmem
        omega
      have hlst : splitLastChar '"' rest = none :=
        splitLastChar_not_mem hrest
      simp only [parse, hstrip, if_neg h1, if_neg h2, if_neg h3, if_neg h4,
        if_neg h5, hq, hlst]

/-- C5 (witness): `WIN+"Hello"` parses to Text with modifier `win`, no
keys, and literal text `Hello`; and the one-quote line `say "hi` (passing
rules 1-5) parses as a default Keystroke in the BLE parser. -/
theorem quoted_text_rule_witness :
    parse usTransformations (str "WIN+\"Hello\"") =
      { command_type := CommandType.text, raw_input := str "WIN+\"Hello\"",
        modifiers := [str "win"], keys := [],
        text_content := some (str "Hello") } ∧
    parse usTransformations (str "say \"hi") =
      { command_type := CommandType.keystroke, raw_input := str "say \"hi",
        modifiers := [], keys := [str "say \"hi"] } := by
  constructor
  · have h := (quoted_text_rule usTransformations).1 (str "WIN+")
      (str "Hello") [] (by decide) (by decide) (by decide) (by decide)
      (by decide) (by decide) (by decide) (by decide)
    exact h.trans (by decide)
  · have h := (quoted_text_rule usTransformations).2 (str "say \"hi")
      (by decide) (by decide) (by decide) (by decide) (by decide)
      (by decide) (by decide)
    exact h.trans (by decide)

/-- C5 (counterexample to the claim as stated): the V2 serial parser
(`kb_handler.py`), cited by the claim, produces a Text command from a line
with only one `"` (splitting at the first and *second* quote, not the
last), and never produces Url: the bare quoted URL that the claim says
becomes a Url command stays a Text command there, while the BLE parser
returns Url for the same line. -/
theorem quoted_text_rule_kb_counterexample :
    (str "say \"hi").count '"' = 1 ∧
    kbParse usTransformations (str "say \"hi") =
      { command_type := CommandType.text, raw_input := str "say \"hi",
        modifiers := [], keys := [str "say"],
        text_content := some (str "hi") } ∧
    kbParse usTransformations (str "\"https://example.com\"") =
      { command_type := CommandType.text,
        raw_input := str "\"https://example.com\"",
        modifiers := [], keys := [],
        text_content := some (str "https://example.com") } ∧
    (parse usTransformations (str "\"https://example.com\"")).command_type
      = CommandType.url := by decide

/-- Modelled from the spec's words for rule 6 (claim C8): the prefix
tokens mapped through the key table and *then* layout-transformed, as the
spec says the quoted-text rule does (`the same tokenization pipeline as
the default Keystroke rule`). -/
def specQuotedPipeline (t : List (Str × Str)) (pfx : Str) : List Str :=
  transform_keys t (mapKeyTokens pfx)

/-- C8 (counterexample to the claim as stated): with the `de` layout the
quoted-text rule does NOT apply the layout transformation to the prefix
tokens: `z+"hi"` keeps the key `z`, whereas the pipeline the claim
describes (mapping then layout transformation, as in the default rule)
would give `y`. -/
theorem quoted_prefix_no_layout_counterexample :
    (parse deTransformations (str "z+\"hi\"")).keys = [str "z"] ∧
    (specQuotedPipeline deTransformations (str "z")).filter
      (fun k => !is_modifier k) = [str "y"] ∧
    (parse deTransformations (str "z+\"hi\"")).keys ≠
      (specQuotedPipeline deTransformations (str "z")).filter
        (fun k => !is_modifier k) := by decide

/-- C8 (amended): in the quoted-text rule each prefix token is stripped
and mapped through the key-token mapping table and the tokens are
partitioned by membership in the modifier set, exactly as in the default
rule, but the keyboard layout transformation is NOT applied (unlike the
default Keystroke rule); consequently the parse result of a quoted line is
independent of the selected layout. -/
theorem quoted_prefix_pipeline (t t' : List (Str × Str))
    (pre mid post : Str)
    (hpre : '"' ∉ pre) (hpost : '"' ∉ post)
    (hstrip : pyStrip (pre ++ ('"' :: (mid ++ ('"' :: post))))
      = pre ++ ('"' :: (mid ++ ('"' :: post))))
    (h1 : pre ++ ('"' :: (mid ++ ('"' :: post))) ∉ READY_SIGNALS)
    (h2 : ¬((str "D").isPrefixOf
              (asciiUpper (pre ++ ('"' :: (mid ++ ('"' :: post)))))
            ∧ 1 < (pre ++ ('"' :: (mid ++ ('"' :: post)))).length
            ∧ pyIsDigits (pre ++ ('"' :: (mid ++ ('"' :: post)))).tail))
    (h3 : ¬((str "<").isPrefixOf (pre ++ ('"' :: (mid ++ ('"' :: post))))
            ∧ (str ">").isSuffixOf (pre ++ ('"' :: (mid ++ ('"' :: post))))))
    (h4 : ¬((str "EXECUTE+").isPrefixOf
              (asciiUpper (pre ++ ('"' :: (mid ++ ('"' :: post))))) = true))
    (h5 : ¬((str "|").isPrefixOf (pre ++ ('"' :: (mid ++ ('"' :: post))))
            ∧ (str "|").isSuffixOf (pre ++ ('"' :: (mid ++ ('"' :: post))))
            ∧ 2 < (pre ++ ('"' :: (mid ++ ('"' :: post)))).length)) :
    (parse t (pre ++ ('"' :: (mid ++ ('"' :: post))))).modifiers =
      (if pyStrip (rstripPlus pre) = [] then []
        else mapKeyTokens (pyStrip (rstripPlus pre))).filter is_modifier ∧
    (parse t (pre ++ ('"' :: (mid ++ ('"' :: post))))).keys =
      (if pyStrip (rstripPlus pre) = [] then []
        else mapKeyTokens (pyStrip (rstripPlus pre))).filter
          (fun k => !is_modifier k) ∧
    parse t (pre ++ ('"' :: (mid ++ ('"' :: post)))) =
      parse t' (pre ++ ('"' :: (mid ++ ('"' :: post)))) := by
  have hb := parse_quote_branch t pre mid post hpre hpost hstrip h1 h2 h3 h4 h5
  have hb' := parse_quote_branch t' pre mid post hpre hpost hstrip h1 h2 h3 h4 h5
  refine ⟨?_, ?_, hb.trans hb'.symm⟩
  · rw [hb]
    split
    · rename_i hcond
      simp [hcond.1]
    · rfl
  · rw [hb]
    split
    · rename_i hcond
      simp [hcond.1]
    · rfl

/-- C8 (witness): concrete instantiation of `quoted_prefix_pipeline` at
`z+"hi"`: the quoted-rule keys are the mapped (un-transformed) tokens, and
the result is identical under the `de` and `us` layouts. -/
theorem quoted_prefix_pipeline_witness :
    (parse deTransformations (str "z+\"hi\"")).keys =
      (if pyStrip (rstripPlus (str "z+")) = [] then []
        else mapKeyTokens (pyStrip (rstripPlus (str "z+")))).filter
          (fun k => !is_modifier k) ∧
    parse deTransformations (str "z+\"hi\"") =
      parse usTransformations (str "z+\"hi\"") := by
  have h := quoted_prefix_pipeline deTransformations usTransformations
    (str "z+") (str "hi") [] (by decide) (by decide) (by decide) (by decide)
    (by decide) (by decide) (by decide) (by decide)
  exact ⟨h.2.1, h.2.2⟩

/-! ### Executor claim C4 -/

/-- The failure-message shapes the executor can report: every `False`
result carries either a branch-specific failure label with the exception
detail, the top-level `Error: <detail>`, or the `No keys` validation
message. -/
def FailMsg (msg : Str) : Prop :=
  msg = str "No keys" ∨
  (∃ e, msg = str "Error: " ++ e) ∨
  (∃ e, msg = str "Delay failed: " ++ e) ∨
  (∃ e, msg = str "Execute failed: " ++ e) ∨
  (∃ e, msg = str "URL open failed: " ++ e) ∨
  (∃ p, msg = str "Path not found: " ++ p) ∨
  (∃ e, msg = str "Path open failed: " ++ e) ∨
  (∃ e, msg = str "CMD failed: " ++ e)

theorem executeDelay_false (fx : Effects) (d : Option Nat)
    (h : (executeDelay fx d).1 = false) :
    ∃ e, (executeDelay fx d).2 = str "Delay failed: " ++ e := by
  cases d with
  | none => exact ⟨str "TypeError", rfl⟩
  | some ms =>
    cases hs : fx.sleep with
    | ok u => simp [executeDelay, hs] at h
    | error e => exact ⟨e, by simp [executeDelay, hs]⟩

theorem executeProgram_false (fx : Effects) (p : Option Str)
    (h : (executeProgram fx p).1 = false) :
    ∃ e, (executeProgram fx p).2 = str "Execute failed: " ++ e := by
  cases p with
  | none => exact ⟨str "TypeError", rfl⟩
  | some path =>
    simp only [executeProgram] at h ⊢
    split at h
    · simp at h
    · rename_i e heq
      exact ⟨e, rfl⟩

theorem executeUrl_false (fx : Effects) (u : Option Str)
    (h : (executeUrl fx u).1 = false) :
    ∃ e, (executeUrl fx u).2 = str "URL open failed: " ++ e := by
  cases u with
  | none => exact ⟨str "TypeError", rfl⟩
  | some url0 =>
    simp only [executeUrl] at h ⊢
    split at h
    · simp at h
    · rename_i e heq
      exact ⟨e, rfl⟩

theorem executeFilePath_false (fx : Effects) (p : Option Str)
    (h : (executeFilePath fx p).1 = false) :
    (∃ e, (executeFilePath fx p).2 = str "Path open failed: " ++ e) ∨
    (∃ q, (executeFilePath fx p).2 = str "Path not found: " ++ q) := by
  cases p with
  | none => exact Or.inl ⟨str "TypeError", rfl⟩
  | some path =>
    simp only [executeFilePath] at h ⊢
    by_cases hex : fx.pathExists path = false
    · rw [if_pos hex]
      exact Or.inr ⟨path, rfl⟩
    · rw [if_neg hex] at h ⊢
      split at h
      · simp at h
      · rename_i e heq
        exact Or.inl ⟨e, rfl⟩

theorem executeCmd_false (fx : Effects) (c : Option Str)
    (h : (executeCmd fx c).1 = false) :
    ∃ e, (executeCmd fx c).2 = str "CMD failed: " ++ e := by
  cases c with
  | none => exact ⟨str "TypeError", rfl⟩
  | some command =>
    simp only [executeCmd] at h ⊢
    split at h
    · simp at h
    · rename_i e heq
      exact ⟨e, rfl⟩

theorem executeText_ok {fx : Effects} {cmd : KeyCommand} {r : Bool × Str}
    (h : executeText fx cmd = Except.ok r) : r.1 = true := by
  simp only [executeText] at h
  split at h
  · exact absurd h (by simp)
  · split at h
    · exact absurd h (by simp)
    · split at h
      · exact absurd h (by simp)
      · injection h with h2
        rw [← h2]

theorem fnFallback_ok {fx : Effects} {ks : List Str} {r : Bool × Str}
    (h : fnFallback fx ks = Except.ok r) : r.1 = true := by
  simp only [fnFallback] at h
  split at h
  · exact absurd h (by simp)
  · injection h with h2; rw [← h2]

theorem fnExceptArm_ok {fx : Effects} {ks : List Str} {r : Bool × Str}
    (h : fnExceptArm fx ks = Except.ok r) : r.1 = true := by
  cases ks with
  | nil =>
    simp only [fnExceptArm] at h
    exact fnFallback_ok h
  | cons k rest =>
    cases rest with
    | cons k2 rest2 =>
      simp only [fnExceptArm] at h
      exact fnFallback_ok h
    | nil =>
      simp only [fnExceptArm] at h
      split at h
      · split at h
        · split at h
          · exact absurd h (by simp)
          · split at h
            · exact absurd h (by simp)
            · injection h with h3
              rw [← h3]
        · exact fnFallback_ok h
      · exact fnFallback_ok h

theorem executeFn_ok {fx : Effects} {ks : List Str} {r : Bool × Str}
    (h : executeFn fx ks = Except.ok r) : r.1 = true := by
  simp only [executeFn] at h
  split at h
  · injection h with h2; rw [← h2]
  · exact fnExceptArm_ok h

theorem executeKeystroke_ok {fx : Effects} {cmd : KeyCommand}
    {r : Bool × Str} (h : executeKeystroke fx cmd = Except.ok r) :
    r.1 = true ∨ r.2 = str "No keys" := by
  simp only [executeKeystroke] at h
  split at h
  · injection h with h2
    rw [← h2]
    exact Or.inr rfl
  · split at h
    · exact Or.inl (executeFn_ok h)
    · split at h
      · injection h with h2; rw [← h2]; exact Or.inl rfl
      · exact absurd h (by simp)

/-- C4 (amended): the executor always returns a `(success, message)` pair
(it is a total function of the command and the effects oracle); any raise
escaping the dispatch is converted by the top-level catch into
`(false, "Error: <detail>")`; and every `False` result carries one of the
known failure labels with the exception detail.  The claim's universal
`raised ⟹ (false, ...)` is NOT true of the code: the fn-combination
fallback recovers from a raise and reports success (see the
counterexample). -/
theorem executor_error_contract (fx : Effects) (cmd : KeyCommand) :
    (∀ e, executeBody fx cmd = Except.error e →
      execute fx cmd = (false, str "Error: " ++ e)) ∧
    ((execute fx cmd).1 = false → FailMsg (execute fx cmd).2) := by
  constructor
  · intro e h
    unfold execute
    rw [h]
  · intro h
    unfold execute at h ⊢
    cases hb : executeBody fx cmd with
    | error e =>
      exact Or.inr (Or.inl ⟨e, rfl⟩)
    | ok r =>
      rw [hb] at h
      have hr : r.1 = false := h
      show FailMsg r.2
      unfold executeBody at hb
      cases hct : cmd.command_type <;> rw [hct] at hb
      case ready_signal =>
        injection hb with h2
        rw [← h2] at hr
        simp at hr
      case delay =>
        injection hb with h2
        rw [← h2] at hr ⊢
        exact Or.inr (Or.inr (Or.inl (executeDelay_false fx _ hr)))
      case execute =>
        injection hb with h2
        rw [← h2] at hr ⊢
        exact Or.inr (Or.inr (Or.inr (Or.inl (executeProgram_false fx _ hr))))
      case url =>
        injection hb with h2
        rw [← h2] at hr ⊢
        exact Or.inr (Or.inr (Or.inr (Or.inr (Or.inl
          (executeUrl_false fx _ hr)))))
      case file_path =>
        injection hb with h2
        rw [← h2] at hr ⊢
        rcases executeFilePath_false fx _ hr with hopen | hnf
        · exact Or.inr (Or.inr (Or.inr (Or.inr (Or.inr (Or.inr
            (Or.inl hopen))))))
        · exact Or.inr (Or.inr (Or.inr (Or.inr (Or.inr (Or.inl hnf)))))
      case cmd =>
        injection hb with h2
        rw [← h2] at hr ⊢
        exact Or.inr (Or.inr (Or.inr (Or.inr (Or.inr (Or.inr (Or.inr
          (executeCmd_false fx _ hr)))))))
      case text =>
        have ht := executeText_ok hb
        rw [ht] at hr
        simp at hr
      case keystroke =>
        rcases executeKeystroke_ok hb with hT | hmsg
        · rw [hT] at hr; simp at hr
        · exact Or.inl hmsg

/-- C4 (witness): with an oracle whose sleep raises, a Text chord command
propagates the raise to the top-level catch and yields
`(false, "Error: interrupted")`, and a Delay command fails inside its
branch with a `FailMsg`-shaped message. -/
theorem executor_error_contract_witness :
    execute fxSleepRaise
      { command_type := CommandType.text, raw_input := str "CTRL+\"x\"",
        modifiers := [str "ctrl"], keys := [],
        text_content := some (str "x") }
      = (false, str "Error: " ++ str "interrupted") ∧
    FailMsg (execute fxSleepRaise
      { command_type := CommandType.delay, raw_input := str "D50",
        modifiers := [], keys := [], delay_ms := some 50 }).2 := by
  refine ⟨(executor_error_contract fxSleepRaise _).1 (str "interrupted")
    (by rfl), (executor_error_contract fxSleepRaise _).2 (by rfl)⟩

/-- C4 (counterexample to the claim as stated): an internal operation
raises (holding the virtual `fn` key is unsupported) and yet the executor
reports success: the fn-combination fallback presses the remaining key
individually and returns `(true, "Pressed (fallback): a")`, not
`(false, ...)`. -/
theorem executor_fn_fallback_counterexample :
    execute fxFnRaise
      { command_type := CommandType.keystroke, raw_input := str "FN+A",
        modifiers := [str "fn"], keys := [str "a"] }
      = (true, str "Pressed (fallback): a") ∧
    fxFnRaise.kbPress (str "fn") =
      Except.error (str "fn hold unsupported") := by
  exact ⟨by decide, rfl⟩

/-! ### Telemetry smoother claims C6 and C9 -/

/-- The specification of one smoothed-and-clamped metric step (claim C6):
the returned value moves from the previous smoothed value by at most
`mr · dt`; when the EMA value already lies within that bound the returned
value is the EMA value, otherwise it is the previous value moved by
exactly `mr · dt` toward the EMA value. -/
def RateClampSpec (alpha mr dt prev raw v : ℚ) : Prop :=
  |v - prev| ≤ mr * dt ∧
  (|alpha * raw + (1 - alpha) * prev - prev| ≤ mr * dt →
    v = alpha * raw + (1 - alpha) * prev) ∧
  (|alpha * raw + (1 - alpha) * prev - prev| > mr * dt →
    v = prev + (if alpha * raw + (1 - alpha) * prev - prev > 0
      then mr * dt else -(mr * dt)))

theorem limit_change_spec (mr nv ov dt : ℚ) (hmr : 0 ≤ mr) (hdt : 0 ≤ dt) :
    |limit_change mr nv ov dt - ov| ≤ mr * dt ∧
    (|nv - ov| ≤ mr * dt → limit_change mr nv ov dt = nv) ∧
    (|nv - ov| > mr * dt →
      limit_change mr nv ov dt
        = ov + (if nv - ov > 0 then mr * dt else -(mr * dt))) := by
  have hprod : 0 ≤ mr * dt := mul_nonneg hmr hdt
  unfold limit_change
  by_cases hd : |nv - ov| > mr * dt
  · rw [if_pos hd]
    refine ⟨?_, fun hle => absurd hd (not_lt.mpr hle), fun _ => rfl⟩
    by_cases hpos : nv - ov > 0
    · rw [if_pos hpos]
      have he : ov + mr * dt - ov = mr * dt := by ring
      rw [he, abs_of_nonneg hprod]
    · rw [if_neg hpos]
      have he : ov + -(mr * dt) - ov = -(mr * dt) := by ring
      rw [he, abs_neg, abs_of_nonneg hprod]
  · rw [if_neg hd]
    exact ⟨not_lt.mp hd, fun _ => rfl, fun hgt => absurd hgt hd⟩

theorem rateClampSpec_of_limit (alpha mr dt prev raw : ℚ)
    (hmr : 0 ≤ mr) (hdt : 0 ≤ dt) :
    RateClampSpec alpha mr dt prev raw
      (limit_change mr (alpha * raw + (1 - alpha) * prev) prev dt) :=
  limit_change_spec mr (alpha * raw + (1 - alpha) * prev) prev dt hmr hdt

/-- C6: on every call to `TelemetryBuffer.update` after the first (the
three smoothed values are present), with nonnegative configured max rate
and nonnegative elapsed time `dt = now - last_update`, each returned
metric satisfies the EMA-then-signed-rate-clamp specification: it differs
from its previous smoothed value by at most `max_change_per_sec · dt`,
equals the EMA value when that value is within the bound, and otherwise
equals the previous value moved by exactly `max_change_per_sec · dt`
toward the EMA value. -/
theorem telemetry_rate_clamp (alpha mr pc pg pr lu craw graw rraw now : ℚ)
    (hmr : 0 ≤ mr) (hdt : lu ≤ now) :
    RateClampSpec alpha mr (now - lu) pc craw
      ((update ⟨alpha, mr, some (pc, pg, pr), lu⟩ craw graw rraw now).2).1 ∧
    RateClampSpec alpha mr (now - lu) pg graw
      ((update ⟨alpha, mr, some (pc, pg, pr), lu⟩ craw graw rraw now).2).2.1 ∧
    RateClampSpec alpha mr (now - lu) pr rraw
      ((update ⟨alpha, mr, some (pc, pg, pr), lu⟩ craw graw rraw now).2).2.2 := by
  have h0 : (0 : ℚ) ≤ now - lu := by linarith
  exact ⟨rateClampSpec_of_limit alpha mr (now - lu) pc craw hmr h0,
    rateClampSpec_of_limit alpha mr (now - lu) pg graw hmr h0,
    rateClampSpec_of_limit alpha mr (now - lu) pr rraw hmr h0⟩

/-- C6 (witness): concrete instantiation of `telemetry_rate_clamp` with
the configured values α = 0.3, max rate 10/s, previous values 50, a raw
step to 100 and one second elapsed. -/
theorem telemetry_rate_clamp_witness :
    RateClampSpec (3/10) 10 (1 - 0) 50 100
      ((update ⟨3/10, 10, some (50, 50, 50), 0⟩ 100 100 100 1).2).1 :=
  (telemetry_rate_clamp (3/10) 10 50 50 50 0 100 100 100 1
    (by norm_num) (by norm_num)).1

/-- `v` lies in the closed interval spanned by `a` and `b`. -/
def Between (a b v : ℚ) : Prop := min a b ≤ v ∧ v ≤ max a b

theorem ema_between (alpha prev raw : ℚ) (h0 : 0 ≤ alpha) (h1 : alpha ≤ 1) :
    Between prev raw (alpha * raw + (1 - alpha) * prev) := by
  constructor
  · rcases le_total prev raw with h | h
    · rw [min_eq_left h]; nlinarith
    · rw [min_eq_right h]; nlinarith
  · rcases le_total prev raw with h | h
    · rw [max_eq_right h]; nlinarith
    · rw [max_eq_left h]; nlinarith

theorem limit_change_between (mr nv ov dt : ℚ) (hmr : 0 ≤ mr)
    (hdt : 0 ≤ dt) : Between ov nv (limit_change mr nv ov dt) := by
  have hprod : 0 ≤ mr * dt := mul_nonneg hmr hdt
  unfold limit_change
  by_cases hd : |nv - ov| > mr * dt
  · rw [if_pos hd]
    by_cases hpos : nv - ov > 0
    · rw [if_pos hpos, abs_of_pos hpos] at *
      constructor
      · have := min_le_left ov nv
        linarith
      · have := le_max_right ov nv
        linarith
    · rw [if_neg hpos]
      have hle : nv - ov ≤ 0 := not_lt.mp hpos
      rw [abs_of_nonpos hle] at hd
      constructor
      · have := min_le_right ov nv
        linarith
      · have := le_max_left ov nv
        linarith
  · rw [if_neg hd]
    exact ⟨min_le_right ov nv, le_max_right ov nv⟩

theorem between_trans {prev raw ema v : ℚ} (h1 : Between prev ema v)
    (h2 : Between prev raw ema) : Between prev raw v := by
  constructor
  · exact le_trans (le_min (min_le_left prev raw) h2.1) h1.1
  · exact le_trans h1.2 (max_le (le_max_left prev raw) h2.2)

theorem between_bounds {a b v lo hi : ℚ} (h : Between a b v)
    (ha1 : lo ≤ a) (ha2 : a ≤ hi) (hb1 : lo ≤ b) (hb2 : b ≤ hi) :
    lo ≤ v ∧ v ≤ hi :=
  ⟨le_trans (le_min ha1 hb1) h.1, le_trans h.2 (max_le ha2 hb2)⟩

theorem update_between (alpha mr prev raw dt : ℚ)
    (h0 : 0 ≤ alpha) (h1 : alpha ≤ 1) (hmr : 0 ≤ mr) (hdt : 0 ≤ dt) :
    Between prev raw
      (limit_change mr (alpha * raw + (1 - alpha) * prev) prev dt) :=
  between_trans
    (limit_change_between mr (alpha * raw + (1 - alpha) * prev) prev dt
      hmr hdt)
    (ema_between alpha prev raw h0 h1)

theorem runUpdates_bounded_aux (alpha mr : ℚ)
    (h0 : 0 ≤ alpha) (h1 : alpha ≤ 1) (hmr : 0 ≤ mr) :
    ∀ (calls : List (ℚ × ℚ × ℚ × ℚ)) (vals : Option (ℚ × ℚ × ℚ)) (t : ℚ),
      Chrono t calls →
      (∀ q ∈ calls, (0 ≤ q.1 ∧ q.1 ≤ 100) ∧ (0 ≤ q.2.1 ∧ q.2.1 ≤ 100)
        ∧ (0 ≤ q.2.2.1 ∧ q.2.2.1 ≤ 100)) →
      (∀ v, vals = some v → (0 ≤ v.1 ∧ v.1 ≤ 100)
        ∧ (0 ≤ v.2.1 ∧ v.2.1 ≤ 100) ∧ (0 ≤ v.2.2 ∧ v.2.2 ≤ 100)) →
      ∀ o ∈ (runUpdates ⟨alpha, mr, vals, t⟩ calls).2,
        (0 ≤ o.1 ∧ o.1 ≤ 100) ∧ (0 ≤ o.2.1 ∧ o.2.1 ≤ 100)
          ∧ (0 ≤ o.2.2 ∧ o.2.2 ≤ 100) := by
  intro calls
  induction calls with
  | nil =>
    intro vals t _ _ _ o ho
    simp [runUpdates] at ho
  | cons q rest ih =>
    obtain ⟨c, g, r, now⟩ := q
    intro vals t hch hraws hvals o ho
    have hq := hraws (c, g, r, now) (List.mem_cons_self _ _)
    have hrest : ∀ q ∈ rest, (0 ≤ q.1 ∧ q.1 ≤ 100)
        ∧ (0 ≤ q.2.1 ∧ q.2.1 ≤ 100) ∧ (0 ≤ q.2.2.1 ∧ q.2.2.1 ≤ 100) :=
      fun q hqm => hraws q (List.mem_cons_of_mem _ hqm)
    cases vals with
    | none =>
      simp only [runUpdates, update, List.mem_cons] at ho
      rcases ho with ho | ho
      · rw [ho]
        exact ⟨hq.1, hq.2.1, hq.2.2⟩
      · exact ih (some (c, g, r)) now hch.2 hrest
          (by intro v hv; injection hv with hv; rw [← hv]
              exact ⟨hq.1, hq.2.1, hq.2.2⟩) o ho
    | some p =>
      obtain ⟨pc, pg, pr⟩ := p
      have hp := hvals (pc, pg, pr) rfl
      have hdt : (0 : ℚ) ≤ now - t := by
        have := hch.1
        linarith
      have hc' := between_bounds
        (update_between alpha mr pc c (now - t) h0 h1 hmr hdt)
        hp.1.1 hp.1.2 hq.1.1 hq.1.2
      have hg' := between_bounds
        (update_between alpha mr pg g (now - t) h0 h1 hmr hdt)
        hp.2.1.1 hp.2.1.2 hq.2.1.1 hq.2.1.2
      have hr' := between_bounds
        (update_between alpha mr pr r (now - t) h0 h1 hmr hdt)
        hp.2.2.1 hp.2.2.2 hq.2.2.1 hq.2.2.2
      simp only [runUpdates, update, List.mem_cons] at ho
      rcases ho with ho | ho
      · rw [ho]
        exact ⟨hc', hg', hr'⟩
      · exact ih (some _) now hch.2 hrest
          (by intro v hv; injection hv with hv; rw [← hv]
              exact ⟨hc', hg', hr'⟩) o ho

/-- C9: (one step) on every non-first call to `TelemetryBuffer.update`
with smoothing factor in `[0,1]`, nonnegative configured max rate and
nonnegative elapsed time, each returned metric lies in the closed interval
between its previous smoothed value and the corresponding raw sample (the
filter never overshoots); (whole run) starting from a fresh buffer, if
every raw sample of a chronologically ordered call sequence lies in
`[0,100]`, then every value the smoother ever returns lies in `[0,100]`. -/
theorem telemetry_no_overshoot :
    (∀ alpha mr pc pg pr lu craw graw rraw now : ℚ,
      0 ≤ alpha → alpha ≤ 1 → 0 ≤ mr → lu ≤ now →
      Between pc craw
        ((update ⟨alpha, mr, some (pc, pg, pr), lu⟩ craw graw rraw now).2).1 ∧
      Between pg graw
        ((update ⟨alpha, mr, some (pc, pg, pr), lu⟩ craw graw rraw now).2).2.1 ∧
      Between pr rraw
        ((update ⟨alpha, mr, some (pc, pg, pr), lu⟩ craw graw rraw now).2).2.2) ∧
    (∀ (alpha mr t0 : ℚ) (calls : List (ℚ × ℚ × ℚ × ℚ)),
      0 ≤ alpha → alpha ≤ 1 → 0 ≤ mr → Chrono t0 calls →
      (∀ q ∈ calls, (0 ≤ q.1 ∧ q.1 ≤ 100) ∧ (0 ≤ q.2.1 ∧ q.2.1 ≤ 100)
        ∧ (0 ≤ q.2.2.1 ∧ q.2.2.1 ≤ 100)) →
      ∀ o ∈ (runUpdates ⟨alpha, mr, none, t0⟩ calls).2,
        (0 ≤ o.1 ∧ o.1 ≤ 100) ∧ (0 ≤ o.2.1 ∧ o.2.1 ≤ 100)
          ∧ (0 ≤ o.2.2 ∧ o.2.2 ≤ 100)) := by
  constructor
  · intro alpha mr pc pg pr lu craw graw rraw now h0 h1 hmr hdt
    have hd : (0 : ℚ) ≤ now - lu := by linarith
    exact ⟨update_between alpha mr pc craw (now - lu) h0 h1 hmr hd,
      update_between alpha mr pg graw (now - lu) h0 h1 hmr hd,
      update_between alpha mr pr rraw (now - lu) h0 h1 hmr hd⟩
  · intro alpha mr t0 calls h0 h1 hmr hch hraws
    exact runUpdates_bounded_aux alpha mr h0 h1 hmr calls none t0 hch hraws
      (by intro v hv; exact absurd hv (by simp))

/-- C9 (witness): concrete instantiation of `telemetry_no_overshoot`: one
smoothing step from previous value 50 toward raw 100 stays between them,
and a concrete two-call run with samples in `[0,100]` stays in `[0,100]`. -/
theorem telemetry_no_overshoot_witness :
    Between 50 100
      ((update ⟨3/10, 10, some (50, 50, 50), 0⟩ 100 100 100 1).2).1 ∧
    ∀ o ∈ (runUpdates ⟨3/10, 10, none, 0⟩
        [(30, 40, 50, 1), (100, 0, 50, 2)]).2,
      (0 ≤ o.1 ∧ o.1 ≤ 100) ∧ (0 ≤ o.2.1 ∧ o.2.1 ≤ 100)
        ∧ (0 ≤ o.2.2 ∧ o.2.2 ≤ 100) := by
  constructor
  · exact (telemetry_no_overshoot.1 (3/10) 10 50 50 50 0 100 100 100 1
      (by norm_num) (by norm_num) (by norm_num) (by norm_num)).1
  · exact telemetry_no_overshoot.2 (3/10) 10 0
      [(30, 40, 50, 1), (100, 0, 50, 2)]
      (by norm_num) (by norm_num) (by norm_num)
      (by constructor <;> norm_num [Chrono])
      (by intro q hq; fin_cases hq <;> norm_num)

end CYD
